import Mathlib

/-!
Verification of the binary buddy allocator in `src/buddy.c`.

The allocator manages a fixed arena of `2^MAX_ORDER` bytes (`g_memory`).
Addresses are modelled as byte offsets from the arena base `g_memory`
(the spec's `BASE`), so address arithmetic is on `Nat`.  A page record
`g_pages[p]` is identified by its index `p`; the intrusive free lists
`free_area[o]` are modelled as lists of page indices, most recently
inserted first (`list_add` inserts at the head, `free_area[i].next` is
the first element).  The `order` field of `g_pages[p]` is an `Int`
(`CLEAR(x) x = -1` stores the sentinel -1).
-/

namespace Buddy

/-- `MIN_ORDER` (buddy.c line 29). -/
abbrev MIN_ORDER : Nat := 12

/-- `MAX_ORDER` (buddy.c line 30). -/
abbrev MAX_ORDER : Nat := 20

/-- `PAGE_SIZE = (1 << MIN_ORDER)` (buddy.c line 32). -/
abbrev PAGE_SIZE : Nat := 2 ^ MIN_ORDER

/-- Number of page records, `(1 << MAX_ORDER) / PAGE_SIZE` (buddy.c line 73). -/
abbrev N_PAGES : Nat := 2 ^ MAX_ORDER / PAGE_SIZE

/-- The sentinel stored by `CLEAR(x) x = -1` (buddy.c line 28). -/
abbrev UNSET : Int := -1

/-- `ADDR_TO_PAGE` (buddy.c line 37), on offsets from `g_memory`. -/
def ADDR_TO_PAGE (addr : Nat) : Nat := addr / PAGE_SIZE

/-- `PAGE_TO_ADDR` (buddy.c line 34), producing the offset from `g_memory`. -/
def PAGE_TO_ADDR (idx : Nat) : Nat := idx * PAGE_SIZE

/-- `BUDDY_ADDR` (buddy.c lines 40-41): `((addr - base) ^ (1 << o)) + base`,
expressed on offsets. -/
def BUDDY_ADDR (addr o : Nat) : Nat := addr ^^^ 2 ^ o

/-- Align `List.erase` on (page, order) pairs with the `BEq` instance derived
from decidable equality, the one Mathlib's permutation lemmas are stated for. -/
@[reducible] instance : BEq (Nat × Nat) := instBEqOfDecidableEq

instance : LawfulBEq (Nat × Nat) := ⟨fun h => of_decide_eq_true h, decide_eq_true rfl⟩

/-- Allocator state: `free_area o` is the free list at order `o` (page indices,
head first) and `order p` is the field `g_pages[p].order`. -/
@[ext]
structure AState where
  free_area : Nat → List Nat
  order : Nat → Int

/-- `buddy_init` (buddy.c lines 86-106): every record's order is cleared to -1,
all free lists are empty, and page 0 is inserted into `free_area[MAX_ORDER]`
as the single block covering the whole arena. -/
def buddy_init : AState where
  free_area := Function.update (fun _ => []) MAX_ORDER [0]
  order := fun _ => UNSET

/-- Ceiling base-2 logarithm, structurally recursive with explicit fuel
(so that it evaluates by kernel reduction); `clog2F n n = Nat.clog 2 n`. -/
def clog2F : Nat → Nat → Nat
  | 0, _ => 0
  | fuel + 1, n => if n ≤ 1 then 0 else clog2F fuel ((n + 1) / 2) + 1

/-- `ceil(log2 n)` for `n ≥ 1`; agrees with `Nat.clog 2`. -/
def clog2 (n : Nat) : Nat := clog2F n n

/-- `REQ_ORDER` (buddy.c line 184): `MAX(ceil(log2(size)), MIN_ORDER)`. -/
def req_order (size : Int) : Nat := max (clog2 size.toNat) MIN_ORDER

/-- The search loop of `buddy_alloc` (buddy.c lines 187-206): the first
`i ∈ [r, MAX_ORDER]` with a non-empty free list; the second argument counts
the remaining indices to scan. -/
def find_nonempty_from (st : AState) : Nat → Nat → Option Nat
  | _, 0 => none
  | r, k + 1 => if st.free_area r = [] then find_nonempty_from st (r + 1) k else some r

/-- First `i ∈ [r, MAX_ORDER]` whose free list is non-empty. -/
def find_nonempty (st : AState) (r : Nat) : Option Nat :=
  find_nonempty_from st r (MAX_ORDER + 1 - r)

/-- `buddy_alloc` returns the NULL pointer at two distinct return sites:
line 175 (`size <= 0`) and line 210 (no non-empty free list).  The two
error constructors label those two sites with the spec's error kinds. -/
inductive AllocResult where
  | ok (addr : Nat)
  | invalidSize
  | outOfMemory
deriving DecidableEq, Repr

/-- `buddy_split` (buddy.c lines 116-150), parameterized by the `buddy_alloc`
it re-enters at line 140.  Exact fit (`o = i`): remove the head of
`free_area[i]`, set its order field, return its address.  Otherwise:
allocate a block of order `o + 1` recursively, insert the right half
(page index `left + (1 << o) / PAGE_SIZE`) at the head of `free_area[o]`
(its order field is NOT written), set the left half's order field to `o`,
and return the left half.  The `[]` and error fallthroughs correspond to
paths that are undefined behaviour in C (`list_entry` on an empty list,
`ADDR_TO_PAGE(NULL)`) and are never taken by `buddy_alloc`. -/
def buddy_split_step (alloc_fn : AState → Int → AllocResult × AState)
    (st : AState) (i o : Nat) : AllocResult × AState :=
  if o = i then
    match st.free_area i with
    | [] => (.outOfMemory, st)
    | p :: rest =>
        (.ok (PAGE_TO_ADDR p),
         { st with free_area := Function.update st.free_area i rest,
                   order := Function.update st.order p (o : Int) })
  else
    match alloc_fn st (((2 : Nat) ^ (o + 1) : Nat) : Int) with
    | (.ok a, st') =>
        (.ok (PAGE_TO_ADDR (ADDR_TO_PAGE a)),
         { st' with
            free_area := Function.update st'.free_area o
              ((ADDR_TO_PAGE a + 2 ^ o / PAGE_SIZE) :: st'.free_area o),
            order := Function.update st'.order (ADDR_TO_PAGE a) (o : Int) })
    | (e, st') => (e, st')

/-- `buddy_alloc` (buddy.c lines 166-211) with fuel bounding the
`buddy_alloc`/`buddy_split` mutual recursion (its depth is at most
`MAX_ORDER - MIN_ORDER`, so any fuel ≥ 10 is never exhausted). -/
def buddy_alloc_fuel : Nat → AState → Int → AllocResult × AState
  | 0, st, _ => (.outOfMemory, st)
  | fuel + 1, st, size =>
    if size ≤ 0 then (.invalidSize, st)
    else
      match find_nonempty st (req_order size) with
      | some i => buddy_split_step (buddy_alloc_fuel fuel) st i (req_order size)
      | none => (.outOfMemory, st)

/-- Fuel amply covering the recursion depth of both operations. -/
abbrev FUEL : Nat := 32

/-- `buddy_alloc` as called by clients. -/
def buddy_alloc (st : AState) (size : Int) : AllocResult × AState :=
  buddy_alloc_fuel FUEL st size

/-- `find_buddy` (buddy.c lines 220-233): the first entry of `free_area[o]`
whose record address equals `BUDDY_ADDR(address, o)`.  The
`NULL == current_page` disjunct in the C source is dead code
(`list_entry` never yields NULL). -/
def find_buddy (st : AState) (address o : Nat) : Option Nat :=
  (st.free_area o).find? (fun p => BUDDY_ADDR address o == PAGE_TO_ADDR p)

/-- The do-while loop of `buddy_free` (buddy.c lines 265-284).  If the buddy
is not found in `free_area[o]`, clear the order field of the block at hand,
insert it at the head of `free_area[o]` and return.  Otherwise move to the
lower of the two addresses, unlink the buddy, and continue one order up --
but only while `o < MAX_ORDER` (`order++ < MAX_ORDER` compares the
pre-increment value).  `o` strictly increases, so `MAX_ORDER + 1 - o`
iterations always suffice and the fuel is never exhausted. -/
def buddy_free_loop : Nat → AState → Nat → Nat → Nat → AState
  | 0, st, _, _, _ => st
  | fuel + 1, st, address, index, o =>
    match find_buddy st address o with
    | none =>
        { st with order := Function.update st.order index UNSET,
                  free_area := Function.update st.free_area o (index :: st.free_area o) }
    | some bp =>
        let address' := if PAGE_TO_ADDR bp < address then PAGE_TO_ADDR bp else address
        let st' := { st with
          free_area := Function.update st.free_area o ((st.free_area o).erase bp) }
        if o < MAX_ORDER then buddy_free_loop fuel st' address' (ADDR_TO_PAGE address') (o + 1)
        else st'

/-- `buddy_free` (buddy.c lines 244-286).  It reads `g_pages[index].order`;
when that field is `UNSET` the C code indexes `free_area[-1]` (undefined
behaviour), and the model's `Int.toNat` turns the -1 into order 0.  Every
claim restricts calls to addresses carrying a live allocation, whose order
field holds the allocated order. -/
def buddy_free (st : AState) (addr : Nat) : AState :=
  buddy_free_loop FUEL st addr (ADDR_TO_PAGE addr) (st.order (ADDR_TO_PAGE addr)).toNat

/-- `buddy_dump` (buddy.c lines 293-305): for each `o` in
`[MIN_ORDER, MAX_ORDER]` it prints `"%d:%dK "` -- the length of
`free_area[o]` and `(1 << o) / 1024` -- and finally `"\n"`.  Note every
pair, the last included, is followed by one space. -/
def buddy_dump (st : AState) : String :=
  String.join ((List.range' MIN_ORDER (MAX_ORDER - MIN_ORDER + 1)).map
    (fun o => toString (st.free_area o).length ++ ":" ++ toString (2 ^ o / 1024) ++ "K "))
    ++ "\n"

/-- The splitting descent as the spec's sec. 9 iterative algorithm states it:
`k` remaining steps; in each step `j = r + k - 1` the right half
`p + (1 << j) / PAGE_SIZE` is inserted at the head of `free_area[j]`,
highest order first, `j = r` last; the left half `p` is retained. -/
def descend : Nat → AState → Nat → Nat → AState
  | 0, st, _, _ => st
  | k + 1, st, p, r =>
      descend k
        { st with
            free_area := Function.update st.free_area (r + k)
              ((p + 2 ^ (r + k) / PAGE_SIZE) :: st.free_area (r + k)) }
        p r

/-- The direct iterative allocation of spec sec. 9: find the first non-empty
order `i ≥ r`, remove its head, then loop from `i - 1` down to `r`
splitting once per step, and set the returned page's order field to `r`. -/
def buddy_alloc_iter (st : AState) (size : Int) : AllocResult × AState :=
  if size ≤ 0 then (.invalidSize, st)
  else
    match find_nonempty st (req_order size) with
    | none => (.outOfMemory, st)
    | some i =>
      match st.free_area i with
      | [] => (.outOfMemory, st)
      | p :: rest =>
          (.ok (PAGE_TO_ADDR p),
           descend (i - req_order size)
             { st with free_area := Function.update st.free_area i rest,
                       order := Function.update st.order p ((req_order size : Nat) : Int) }
             p (req_order size))

/-- The multiset of page indices covered by a block with head page `p` and
order `o` (the byte range `[PAGE_TO_ADDR p, PAGE_TO_ADDR p + 2^o)` at page
granularity). -/
def pagesOf (p o : Nat) : Multiset Nat :=
  ((List.range (2 ^ (o - MIN_ORDER))).map (fun q => p + q) : List Nat)

/-- Pages covered by all free-list members. -/
def freeCoverF (f : Nat → List Nat) : Multiset Nat :=
  ((List.range (MAX_ORDER + 1)).map
    (fun o => (((f o).map (fun p => pagesOf p o)).sum))).sum

/-- Pages covered by the live allocations `L` (pairs of head page and order). -/
def liveCover (L : List (Nat × Nat)) : Multiset Nat :=
  (L.map (fun q => pagesOf q.1 q.2)).sum

/-- The multiset union of all free blocks and all live allocations, at page
granularity. -/
def covered (st : AState) (L : List (Nat × Nat)) : Multiset Nat :=
  freeCoverF st.free_area + liveCover L

/-- Structural invariants: free-list members and live allocations carry
orders in `[MIN_ORDER, MAX_ORDER]` and are aligned to their order; the
order field of each live allocation's head page holds its order. -/
structure StInv (st : AState) (L : List (Nat × Nat)) : Prop where
  free_align : ∀ o p, p ∈ st.free_area o →
    MIN_ORDER ≤ o ∧ o ≤ MAX_ORDER ∧ 2 ^ (o - MIN_ORDER) ∣ p
  live_range : ∀ q ∈ L, MIN_ORDER ≤ q.2 ∧ q.2 ≤ MAX_ORDER ∧ 2 ^ (q.2 - MIN_ORDER) ∣ q.1
  live_order : ∀ q ∈ L, st.order q.1 = (q.2 : Int)

/-- Full invariant: structural facts plus exact coverage -- free blocks and
live allocations partition the arena, each page counted exactly once. -/
def Inv (st : AState) (L : List (Nat × Nat)) : Prop :=
  StInv st L ∧ covered st L = Multiset.range N_PAGES

/-- States reachable from `buddy_init` by `buddy_alloc`/`buddy_free` calls
that respect the free precondition (only addresses returned by a
successful allocation and not yet freed are passed to `buddy_free`).
`L` is the ghost list of live allocations as (head page, order) pairs. -/
inductive Reach : AState → List (Nat × Nat) → Prop where
  | init : Reach buddy_init []
  | allocOk {st L size a st'} : Reach st L →
      buddy_alloc st size = (.ok a, st') →
      Reach st' ((ADDR_TO_PAGE a, req_order size) :: L)
  | allocFail {st L size e st'} : Reach st L →
      buddy_alloc st size = (e, st') → (∀ a, e ≠ .ok a) →
      Reach st' L
  | free {st L p o st'} : Reach st L → (p, o) ∈ L →
      buddy_free st (PAGE_TO_ADDR p) = st' →
      Reach st' (L.erase (p, o))

/-- Pages of the right halves inserted by `k` split steps at orders
`r + k - 1` down to `r` (left half head `p`). -/
def rightsPages (p r : Nat) : Nat → Multiset Nat
  | 0 => 0
  | k + 1 => pagesOf (p + 2 ^ (r + k - MIN_ORDER)) (r + k) + rightsPages p r k

/-- Invariant of the `buddy_free` do-while loop: the block at hand
(`address`, head page `index`, order `o`) is aligned, within order bounds,
and together with the free lists and the remaining live allocations `L`
covers the arena exactly once. -/
structure LoopInv (st : AState) (address index o : Nat) (L : List (Nat × Nat)) : Prop where
  addr_eq : address = PAGE_TO_ADDR index
  align : 2 ^ (o - MIN_ORDER) ∣ index
  omin : MIN_ORDER ≤ o
  omax : o ≤ MAX_ORDER
  cover : covered st L + pagesOf index o = Multiset.range N_PAGES
  stinv : StInv st L

/-- State after `a1 = buddy_alloc(64 KiB)` from a fresh allocator. -/
def st64a : AState := (buddy_alloc buddy_init 65536).2

/-- State after a further `a2 = buddy_alloc(64 KiB)`. -/
def st64b : AState := (buddy_alloc st64a 65536).2

/-- ... then `buddy_free(a1); buddy_free(a2)` (`a1 = 0`, `a2 = 65536`). -/
def stC6A : AState := buddy_free (buddy_free st64b 0) 65536

/-- ... or instead `buddy_free(a2); buddy_free(a1)`. -/
def stC6B : AState := buddy_free (buddy_free st64b 65536) 0

/-- State after `a1 = buddy_alloc(4 KiB)` from a fresh allocator. -/
def st4a : AState := (buddy_alloc buddy_init 4096).2

/-- State after a further `a2 = buddy_alloc(4 KiB)`. -/
def st4b : AState := (buddy_alloc st4a 4096).2

/-- ... then `buddy_free(a1); buddy_free(a2)` (`a1 = 0`, `a2 = 4096`). -/
def stC8 : AState := buddy_free (buddy_free st4b 0) 4096

/-- State after `a = buddy_alloc(1 MiB)` from a fresh allocator. -/
def stMiB : AState := (buddy_alloc buddy_init 1048576).2

/-- ... then `buddy_free(a)` (`a = 0`). -/
def stC9 : AState := buddy_free stMiB 0

/-- Explicit form of `st64a` (proved equal below): the 64-KiB allocation took
the order-20 block and left right halves at orders 19..16; the order field of
page 0 was written at every split level, last with the final order 16. -/
def stE1 : AState :=
  ⟨Function.update (Function.update (Function.update (Function.update (Function.update
      (Function.update (fun _ => []) 20 [0]) 20 []) 19 [128]) 18 [64]) 17 [32]) 16 [16],
   Function.update (Function.update (Function.update (Function.update (Function.update
      (fun _ => UNSET) 0 20) 0 19) 0 18) 0 17) 0 16⟩

/-- Explicit form of `st64b`: the second 64-KiB allocation is an exact hit on
page 16, the head of `free_area[16]`. -/
def stE2 : AState :=
  ⟨Function.update stE1.free_area 16 [], Function.update stE1.order 16 (16 : Int)⟩

/-- Explicit form of `buddy_free st64b 0`: page 16 is still allocated, so no
merge happens and page 0 is inserted at order 16. -/
def stE3A : AState :=
  ⟨Function.update stE2.free_area 16 [0], Function.update stE2.order 0 UNSET⟩

/-- Explicit form of `stC6A = buddy_free (buddy_free st64b 0) 65536`: the
merge walks orders 16..19 and inserts page 0 at order 20; the order field of
page 16 is never cleared. -/
def stE4A : AState :=
  ⟨Function.update (Function.update (Function.update (Function.update (Function.update
      stE3A.free_area 16 []) 17 []) 18 []) 19 []) 20 [0],
   Function.update stE3A.order 0 UNSET⟩

/-- Explicit form of `buddy_free st64b 65536`: page 0 is still allocated, so
no merge happens and page 16 is inserted at order 16, its order cleared. -/
def stE3B : AState :=
  ⟨Function.update stE2.free_area 16 [16], Function.update stE2.order 16 UNSET⟩

/-- Explicit form of `stC6B = buddy_free (buddy_free st64b 65536) 0`. -/
def stE4B : AState :=
  ⟨Function.update (Function.update (Function.update (Function.update (Function.update
      stE3B.free_area 16 []) 17 []) 18 []) 19 []) 20 [0],
   Function.update stE3B.order 0 UNSET⟩

/-! ### Arithmetic helpers -/

theorem xor_two_pow_of_testBit_false {a t : Nat} (h : a.testBit t = false) :
    a ^^^ 2 ^ t = a + 2 ^ t := by
  have hmod : a / 2 ^ t % 2 = 0 := by
    rw [Nat.testBit_to_div_mod] at h
    simp only [decide_eq_false_iff_not] at h
    omega
  apply Nat.eq_of_testBit_eq
  intro i
  rcases Nat.lt_trichotomy i t with hi | rfl | hi
  · rw [Nat.testBit_xor, Nat.testBit_two_pow_of_ne (by omega : t ≠ i), Bool.xor_false]
    rw [Nat.testBit_to_div_mod, Nat.testBit_to_div_mod]
    have he1 : t - i + i = t := by omega
    have h2 : 2 ^ (t - i) * 2 ^ i = 2 ^ t := by rw [← Nat.pow_add, he1]
    have h3 : (a + 2 ^ t) / 2 ^ i = a / 2 ^ i + 2 ^ (t - i) := by
      rw [← h2, Nat.add_mul_div_right _ _ (Nat.pos_pow_of_pos i (by omega))]
    rw [h3]
    have h5 : (a / 2 ^ i + 2 ^ (t - i)) % 2 = a / 2 ^ i % 2 := by
      obtain ⟨x, hx⟩ : ∃ x, t - i = x + 1 := ⟨t - i - 1, by omega⟩
      rw [hx, Nat.pow_succ]
      omega
    rw [h5]
  · rw [Nat.testBit_xor, h, Nat.testBit_two_pow_self, Bool.false_xor]
    rw [Nat.testBit_to_div_mod]
    have h3 : (a + 2 ^ i) / 2 ^ i = a / 2 ^ i + 1 :=
      Nat.add_div_right a (Nat.pos_pow_of_pos i (by omega))
    rw [h3]
    have h4 : (a / 2 ^ i + 1) % 2 = 1 := by omega
    rw [h4]
    rfl
  · rw [Nat.testBit_xor, Nat.testBit_two_pow_of_ne (by omega : t ≠ i), Bool.xor_false]
    rw [Nat.testBit_to_div_mod, Nat.testBit_to_div_mod]
    have key : (a + 2 ^ t) / 2 ^ i = a / 2 ^ i := by
      have he1 : t + 1 + (i - t - 1) = i := by omega
      have h2 : 2 ^ (t + 1) * 2 ^ (i - t - 1) = 2 ^ i := by rw [← Nat.pow_add, he1]
      have hp : (2 : Nat) ^ (t + 1) = 2 ^ t * 2 := Nat.pow_succ 2 t
      have hrr : a % 2 ^ (t + 1) < 2 ^ t := by
        have hmm : a % (2 ^ t * 2) = a % 2 ^ t + 2 ^ t * (a / 2 ^ t % 2) := Nat.mod_mul
        have hlt : a % 2 ^ t < 2 ^ t := Nat.mod_lt a (Nat.pos_pow_of_pos t (by omega))
        rw [hp, hmm, hmod]
        omega
      have hq := Nat.div_add_mod a (2 ^ (t + 1))
      have hstep : (a + 2 ^ t) / 2 ^ (t + 1) = a / 2 ^ (t + 1) := by
        have hmul : a / 2 ^ (t + 1) * 2 ^ (t + 1) = 2 ^ (t + 1) * (a / 2 ^ (t + 1)) :=
          Nat.mul_comm _ _
        have hsplit : a + 2 ^ t
            = (a % 2 ^ (t + 1) + 2 ^ t) + a / 2 ^ (t + 1) * 2 ^ (t + 1) := by
          omega
        rw [hsplit, Nat.add_mul_div_right _ _ (Nat.pos_pow_of_pos (t + 1) (by omega)),
          Nat.div_eq_of_lt (by omega)]
        omega
      rw [← h2, ← Nat.div_div_eq_div_mul, ← Nat.div_div_eq_div_mul, hstep]
    rw [key]

theorem xor_two_pow_of_testBit_true {a t : Nat} (h : a.testBit t = true) :
    2 ^ t ≤ a ∧ a ^^^ 2 ^ t = a - 2 ^ t := by
  have hc : (a ^^^ 2 ^ t).testBit t = false := by
    rw [Nat.testBit_xor, h, Nat.testBit_two_pow_self]
    rfl
  have h1 := xor_two_pow_of_testBit_false hc
  rw [Nat.xor_cancel_right] at h1
  constructor <;> omega

theorem testBit_mul_two_pow_self (m t : Nat) :
    (m * 2 ^ t).testBit t = decide (m % 2 = 1) := by
  rw [Nat.testBit_to_div_mod, Nat.mul_div_cancel _ (Nat.pos_pow_of_pos t (by omega))]

theorem xor_pow_even {m t : Nat} (hm : m % 2 = 0) :
    m * 2 ^ t ^^^ 2 ^ t = (m + 1) * 2 ^ t := by
  have hb : (m * 2 ^ t).testBit t = false := by
    rw [testBit_mul_two_pow_self]
    simp only [decide_eq_false_iff_not]
    omega
  rw [xor_two_pow_of_testBit_false hb]
  ring

theorem xor_pow_odd {m t : Nat} (hm : m % 2 = 1) :
    m * 2 ^ t ^^^ 2 ^ t = (m - 1) * 2 ^ t := by
  have hb : (m * 2 ^ t).testBit t = true := by
    rw [testBit_mul_two_pow_self]
    simp [hm]
  obtain ⟨hle, heq⟩ := xor_two_pow_of_testBit_true hb
  rw [heq, Nat.sub_mul, one_mul]

theorem xor_pow_of_lt {a t : Nat} (h : a < 2 ^ t) : a ^^^ 2 ^ t = a + 2 ^ t := by
  apply xor_two_pow_of_testBit_false
  rw [Nat.testBit_to_div_mod, Nat.div_eq_of_lt h]
  simp

/-! ### clog2 agrees with Nat.clog 2 -/

theorem clog2F_eq_clog (fuel : Nat) : ∀ n : Nat, n ≤ fuel → clog2F fuel n = Nat.clog 2 n := by
  induction fuel with
  | zero =>
    intro n hn
    have : n = 0 := by omega
    subst this
    simp [clog2F]
  | succ f ih =>
    intro n hn
    by_cases h1 : n ≤ 1
    · rw [clog2F, if_pos h1, Nat.clog_of_right_le_one h1]
    · have h2 : 2 ≤ n := by omega
      have hre : (n + 2 - 1) / 2 = (n + 1) / 2 := by omega
      have h3 : Nat.clog 2 n = Nat.clog 2 ((n + 1) / 2) + 1 := by
        rw [Nat.clog_of_two_le (by norm_num : (1 : Nat) < 2) h2, hre]
      rw [clog2F, if_neg h1, ih ((n + 1) / 2) (by omega), h3]

theorem clog2_eq_clog (n : Nat) : clog2 n = Nat.clog 2 n := clog2F_eq_clog n n le_rfl

theorem req_order_def (size : Int) :
    req_order size = max MIN_ORDER (Nat.clog 2 size.toNat) := by
  rw [req_order, clog2_eq_clog, Nat.max_comm]

theorem min_le_req_order (size : Int) : MIN_ORDER ≤ req_order size :=
  le_max_right _ _

theorem req_order_pow {k : Nat} (hk : MIN_ORDER ≤ k) :
    req_order (((2 : Nat) ^ k : Nat) : Int) = k := by
  rw [req_order, Int.toNat_natCast, clog2_eq_clog, Nat.clog_pow 2 k (by omega)]
  omega

theorem req_order_le_of_le_pow {size : Int} {k : Nat} (h0 : 0 < size)
    (h : size ≤ ((2 : Nat) ^ k : Nat)) (hk : MIN_ORDER ≤ k) : req_order size ≤ k := by
  rw [req_order, clog2_eq_clog]
  have h2 : size.toNat ≤ 2 ^ k := by omega
  have := (Nat.le_pow_iff_clog_le (by omega : 1 < 2)).mp h2
  omega

theorem lt_req_order_of_pow_lt {size : Int} {k : Nat}
    (h : ((2 : Nat) ^ k : Nat) < size) : k < req_order size := by
  rw [req_order, clog2_eq_clog]
  have h2 : 2 ^ k < size.toNat := by omega
  have := (Nat.pow_lt_iff_lt_clog (by omega : 1 < 2)).mp h2
  omega

/-! ### Multiset bookkeeping -/

theorem list_map_sum_update {M : Type} [AddCommMonoid M] (g g' : Nat → M) (n i : Nat)
    (hi : i < n) (hgg : ∀ j, j ≠ i → g' j = g j) :
    ((List.range n).map g').sum + g i = ((List.range n).map g).sum + g' i := by
  induction n with
  | zero => exact absurd hi (Nat.not_lt_zero i)
  | succ m ih =>
    rw [List.range_succ, List.map_append, List.map_append, List.sum_append, List.sum_append]
    simp only [List.map_cons, List.map_nil, List.sum_cons, List.sum_nil]
    rcases Nat.lt_or_ge i m with h2 | h2
    · have h3 := ih h2
      have hgm : g' m = g m := hgg m (by omega)
      rw [hgm]
      calc ((List.range m).map g').sum + (g m + 0) + g i
          = (((List.range m).map g').sum + g i) + (g m + 0) := by abel
        _ = (((List.range m).map g).sum + g' i) + (g m + 0) := by rw [h3]
        _ = ((List.range m).map g).sum + (g m + 0) + g' i := by abel
    · have h4 : i = m := by omega
      subst h4
      have h5 : (List.range i).map g' = (List.range i).map g :=
        List.map_congr_left (fun j hj => hgg j (by
          have := List.mem_range.mp hj
          omega))
      rw [h5]
      abel

theorem le_sum_of_mem {l : List (Multiset Nat)} {x : Multiset Nat} (h : x ∈ l) :
    x ≤ l.sum :=
  List.single_le_sum (fun y _ => Multiset.zero_le y) x h

theorem freeCoverF_update (f : Nat → List Nat) (i : Nat) (l : List Nat)
    (hi : i < MAX_ORDER + 1) :
    freeCoverF (Function.update f i l) + ((f i).map (fun p => pagesOf p i)).sum
      = freeCoverF f + (l.map (fun p => pagesOf p i)).sum := by
  have h := list_map_sum_update
    (fun o => ((f o).map (fun p => pagesOf p o)).sum)
    (fun o => (((Function.update f i l) o).map (fun p => pagesOf p o)).sum)
    (MAX_ORDER + 1) i hi
    (fun j hj => by simp only [Function.update_noteq hj])
  simp only [Function.update_same] at h
  exact h

theorem freeCoverF_cons (f : Nat → List Nat) (i x : Nat) (hi : i < MAX_ORDER + 1) :
    freeCoverF (Function.update f i (x :: f i)) = freeCoverF f + pagesOf x i := by
  have h := freeCoverF_update f i (x :: f i) hi
  simp only [List.map_cons, List.sum_cons] at h
  rw [← add_assoc] at h
  exact add_right_cancel h

theorem freeCoverF_erase (f : Nat → List Nat) (i b : Nat) (hb : b ∈ f i)
    (hi : i < MAX_ORDER + 1) :
    freeCoverF f = freeCoverF (Function.update f i ((f i).erase b)) + pagesOf b i := by
  have h := freeCoverF_update f i ((f i).erase b) hi
  have hperm : (f i).Perm (b :: (f i).erase b) := List.perm_cons_erase hb
  have h2 : ((f i).map (fun p => pagesOf p i)).sum
      = pagesOf b i + (((f i).erase b).map (fun p => pagesOf p i)).sum := by
    rw [(hperm.map (fun p => pagesOf p i)).sum_eq, List.map_cons, List.sum_cons]
  rw [h2] at h
  have h3 : freeCoverF (Function.update f i ((f i).erase b)) + pagesOf b i
        + (((f i).erase b).map (fun p => pagesOf p i)).sum
      = freeCoverF f + (((f i).erase b).map (fun p => pagesOf p i)).sum := by
    calc freeCoverF (Function.update f i ((f i).erase b)) + pagesOf b i
          + (((f i).erase b).map (fun p => pagesOf p i)).sum
        = freeCoverF (Function.update f i ((f i).erase b))
          + (pagesOf b i + (((f i).erase b).map (fun p => pagesOf p i)).sum) := by abel
      _ = freeCoverF f + (((f i).erase b).map (fun p => pagesOf p i)).sum := h
  exact (add_right_cancel h3).symm

theorem pagesOf_le_freeCoverF {f : Nat → List Nat} {o p : Nat} (hp : p ∈ f o)
    (ho : o ≤ MAX_ORDER) : pagesOf p o ≤ freeCoverF f := by
  have h1 : pagesOf p o ≤ ((f o).map (fun q => pagesOf q o)).sum :=
    le_sum_of_mem (List.mem_map_of_mem _ hp)
  have h2 : ((f o).map (fun q => pagesOf q o)).sum ≤ freeCoverF f :=
    le_sum_of_mem (List.mem_map_of_mem _ (List.mem_range.mpr (by omega)))
  exact h1.trans h2

theorem pagesOf_le_liveCover {L : List (Nat × Nat)} {q : Nat × Nat} (hq : q ∈ L) :
    pagesOf q.1 q.2 ≤ liveCover L :=
  le_sum_of_mem (List.mem_map_of_mem _ hq)

theorem sum_two_le {α : Type} [DecidableEq α] (l : List α) (g : α → Multiset Nat)
    (a b : α) (ha : a ∈ l) (hb : b ∈ l.erase a) : g a + g b ≤ (l.map g).sum := by
  have hp : l.Perm (a :: l.erase a) := List.perm_cons_erase ha
  have h1 : (l.map g).sum = g a + ((l.erase a).map g).sum := by
    rw [(hp.map g).sum_eq, List.map_cons, List.sum_cons]
  rw [h1]
  exact add_le_add_left (le_sum_of_mem (List.mem_map_of_mem _ hb)) _

/-! ### pagesOf -/

theorem mem_pagesOf {x p o : Nat} :
    x ∈ pagesOf p o ↔ p ≤ x ∧ x < p + 2 ^ (o - MIN_ORDER) := by
  unfold pagesOf
  rw [Multiset.mem_coe, List.mem_map]
  constructor
  · rintro ⟨q, hq, rfl⟩
    rw [List.mem_range] at hq
    omega
  · rintro ⟨h1, h2⟩
    exact ⟨x - p, List.mem_range.mpr (by omega), by omega⟩

theorem self_mem_pagesOf (p o : Nat) : p ∈ pagesOf p o :=
  mem_pagesOf.mpr ⟨le_rfl, by have := Nat.pos_pow_of_pos (o - MIN_ORDER) (by omega : 0 < 2); omega⟩

theorem pagesOf_split {p o : Nat} (ho : MIN_ORDER ≤ o) :
    pagesOf p (o + 1) = pagesOf p o + pagesOf (p + 2 ^ (o - MIN_ORDER)) o := by
  unfold pagesOf
  have h1 : o + 1 - MIN_ORDER = (o - MIN_ORDER) + 1 := by omega
  have h2 : (2 : Nat) ^ ((o - MIN_ORDER) + 1) = 2 ^ (o - MIN_ORDER) + 2 ^ (o - MIN_ORDER) := by
    rw [Nat.pow_succ]
    omega
  have h3 : (List.range (2 ^ (o + 1 - MIN_ORDER))).map (fun q => p + q)
      = (List.range (2 ^ (o - MIN_ORDER))).map (fun q => p + q)
        ++ (List.range (2 ^ (o - MIN_ORDER))).map (fun q => p + 2 ^ (o - MIN_ORDER) + q) := by
    rw [h1, h2, List.range_add, List.map_append, List.map_map]
    congr 1
    apply List.map_congr_left
    intro q _
    simp only [Function.comp_apply]
    omega
  rw [h3]
  exact Multiset.coe_add _ _

/-! ### find_nonempty -/

theorem find_nonempty_from_eq_some {st : AState} :
    ∀ k r i, find_nonempty_from st r k = some i ↔
      (r ≤ i ∧ i < r + k ∧ st.free_area i ≠ [] ∧
        ∀ j, r ≤ j → j < i → st.free_area j = []) := by
  intro k
  induction k with
  | zero =>
    intro r i
    rw [find_nonempty_from]
    constructor
    · intro hc
      exact absurd hc (by simp)
    · rintro ⟨h1, h2, h3, h4⟩
      omega
  | succ m ih =>
    intro r i
    rw [find_nonempty_from]
    by_cases hr : st.free_area r = []
    · rw [if_pos hr, ih (r + 1) i]
      constructor
      · rintro ⟨h1, h2, h3, h4⟩
        refine ⟨by omega, by omega, h3, ?_⟩
        intro j hj1 hj2
        rcases Nat.eq_or_lt_of_le hj1 with h5 | h5
        · rw [← h5]
          exact hr
        · exact h4 j h5 hj2
      · rintro ⟨h1, h2, h3, h4⟩
        have hri : r ≠ i := by
          rintro rfl
          exact h3 hr
        exact ⟨by omega, by omega, h3, fun j hj1 hj2 => h4 j (by omega) hj2⟩
    · rw [if_neg hr]
      constructor
      · intro hc
        have : r = i := by
          have := Option.some_injective _ hc
          exact this
        subst this
        exact ⟨le_rfl, by omega, hr, fun j h1 h2 => by omega⟩
      · rintro ⟨h1, h2, h3, h4⟩
        have : r = i := by
          by_contra hne
          exact hr (h4 r le_rfl (by omega))
        rw [this]

theorem find_nonempty_eq_some {st : AState} {r i : Nat} :
    find_nonempty st r = some i ↔
      (r ≤ i ∧ i ≤ MAX_ORDER ∧ st.free_area i ≠ [] ∧
        ∀ j, r ≤ j → j < i → st.free_area j = []) := by
  rw [find_nonempty, find_nonempty_from_eq_some]
  constructor
  · rintro ⟨h1, h2, h3, h4⟩
    exact ⟨h1, by omega, h3, h4⟩
  · rintro ⟨h1, h2, h3, h4⟩
    exact ⟨h1, by omega, h3, h4⟩

theorem find_nonempty_from_eq_none {st : AState} :
    ∀ k r, find_nonempty_from st r k = none ↔
      ∀ j, r ≤ j → j < r + k → st.free_area j = [] := by
  intro k
  induction k with
  | zero =>
    intro r
    rw [find_nonempty_from]
    constructor
    · intro _ j h1 h2
      omega
    · intro _
      rfl
  | succ m ih =>
    intro r
    rw [find_nonempty_from]
    by_cases hr : st.free_area r = []
    · rw [if_pos hr, ih (r + 1)]
      constructor
      · intro h j h1 h2
        rcases Nat.eq_or_lt_of_le h1 with h3 | h3
        · rw [← h3]
          exact hr
        · exact h j h3 (by omega)
      · intro h j h1 h2
        exact h j (by omega) (by omega)
    · rw [if_neg hr]
      constructor
      · intro hc
        exact absurd hc (by simp)
      · intro h
        exact absurd (h r le_rfl (by omega)) hr

theorem find_nonempty_eq_none {st : AState} {r : Nat} :
    find_nonempty st r = none ↔
      ∀ j, r ≤ j → j ≤ MAX_ORDER → st.free_area j = [] := by
  rw [find_nonempty, find_nonempty_from_eq_none]
  constructor
  · intro h j h1 h2
    exact h j h1 (by omega)
  · intro h j h1 h2
    exact h j h1 (by omega)

theorem find_nonempty_step {st : AState} {r i : Nat}
    (h : find_nonempty st r = some i) (hri : r < i) :
    find_nonempty st (r + 1) = some i := by
  rw [find_nonempty_eq_some] at h ⊢
  obtain ⟨h1, h2, h3, h4⟩ := h
  exact ⟨by omega, h2, h3, fun j hj1 hj2 => h4 j (by omega) hj2⟩

/-! ### descend -/

theorem descend_order : ∀ (k : Nat) (st : AState) (p r : Nat),
    (descend k st p r).order = st.order := by
  intro k
  induction k with
  | zero =>
    intro st p r
    rfl
  | succ m ih =>
    intro st p r
    rw [descend, ih]

theorem descend_free_area : ∀ (k : Nat) (st : AState) (p r j : Nat),
    (descend k st p r).free_area j =
      if r ≤ j ∧ j < r + k then (p + 2 ^ j / PAGE_SIZE) :: st.free_area j
      else st.free_area j := by
  intro k
  induction k with
  | zero =>
    intro st p r j
    rw [descend, if_neg (by omega)]
  | succ m ih =>
    intro st p r j
    rw [descend, ih]
    by_cases hj : r ≤ j ∧ j < r + m
    · rw [if_pos hj, if_pos (by omega : r ≤ j ∧ j < r + (m + 1))]
      simp only [Function.update_noteq (by omega : j ≠ r + m)]
    · rw [if_neg hj]
      by_cases hj2 : j = r + m
      · subst hj2
        rw [if_pos (by omega : r ≤ r + m ∧ r + m < r + (m + 1))]
        simp only [Function.update_same]
      · rw [if_neg (by omega : ¬(r ≤ j ∧ j < r + (m + 1)))]
        simp only [Function.update_noteq hj2]

theorem descend_freeCover : ∀ (k : Nat) (st : AState) (p r : Nat), MIN_ORDER ≤ r →
    r + k ≤ MAX_ORDER + 1 →
    freeCoverF (descend k st p r).free_area
      = freeCoverF st.free_area + rightsPages p r k := by
  intro k
  induction k with
  | zero =>
    intro st p r h1 h2
    rw [descend, rightsPages, add_zero]
  | succ m ih =>
    intro st p r h1 h2
    rw [descend, rightsPages, ih _ p r h1 (by omega)]
    have hv : (2 : Nat) ^ (r + m) / PAGE_SIZE = 2 ^ (r + m - MIN_ORDER) :=
      Nat.pow_div (by omega) (by omega)
    rw [freeCoverF_cons st.free_area (r + m) (p + 2 ^ (r + m) / PAGE_SIZE) (by omega), hv]
    abel

theorem rightsPages_telescope : ∀ (k p r : Nat), MIN_ORDER ≤ r →
    pagesOf p r + rightsPages p r k = pagesOf p (r + k) := by
  intro k
  induction k with
  | zero =>
    intro p r h
    rw [rightsPages, add_zero]
    rfl
  | succ m ih =>
    intro p r h
    rw [rightsPages]
    have hsplit := @pagesOf_split p (r + m) (by omega)
    calc pagesOf p r + (pagesOf (p + 2 ^ (r + m - MIN_ORDER)) (r + m) + rightsPages p r m)
        = (pagesOf p r + rightsPages p r m)
            + pagesOf (p + 2 ^ (r + m - MIN_ORDER)) (r + m) := by abel
      _ = pagesOf p (r + m) + pagesOf (p + 2 ^ (r + m - MIN_ORDER)) (r + m) := by
            rw [ih p r h]
      _ = pagesOf p (r + m + 1) := hsplit.symm

/-! ### Characterization of buddy_alloc -/

theorem addr_page_round (p : Nat) : ADDR_TO_PAGE (PAGE_TO_ADDR p) = p := by
  show p * 4096 / 4096 = p
  omega

theorem split_exact {alloc_fn : AState → Int → AllocResult × AState} {st : AState}
    {i p : Nat} {rest : List Nat} (hfree : st.free_area i = p :: rest) :
    buddy_split_step alloc_fn st i i
      = (.ok (PAGE_TO_ADDR p),
         { st with free_area := Function.update st.free_area i rest,
                   order := Function.update st.order p (i : Int) }) := by
  unfold buddy_split_step
  rw [if_pos rfl, hfree]

theorem split_rec_ok {alloc_fn : AState → Int → AllocResult × AState} {st st' : AState}
    {i r a : Nat} (hne : r ≠ i)
    (hrec : alloc_fn st (((2 : Nat) ^ (r + 1) : Nat) : Int) = (.ok a, st')) :
    buddy_split_step alloc_fn st i r
      = (.ok (PAGE_TO_ADDR (ADDR_TO_PAGE a)),
         { st' with
            free_area := Function.update st'.free_area r
              ((ADDR_TO_PAGE a + 2 ^ r / PAGE_SIZE) :: st'.free_area r),
            order := Function.update st'.order (ADDR_TO_PAGE a) (r : Int) }) := by
  unfold buddy_split_step
  rw [if_neg hne, hrec]

theorem buddy_alloc_fuel_succ (fuel : Nat) (st : AState) (size : Int) :
    buddy_alloc_fuel (fuel + 1) st size
      = if size ≤ 0 then (.invalidSize, st)
        else
          match find_nonempty st (req_order size) with
          | some i => buddy_split_step (buddy_alloc_fuel fuel) st i (req_order size)
          | none => (.outOfMemory, st) := rfl

theorem split_step_ok : ∀ (k fuel : Nat) (st : AState) (i r p : Nat) (rest : List Nat),
    i - r = k → r ≤ i → k ≤ fuel → MIN_ORDER ≤ r →
    find_nonempty st r = some i →
    st.free_area i = p :: rest →
    buddy_split_step (buddy_alloc_fuel fuel) st i r
      = (.ok (PAGE_TO_ADDR p),
         descend (i - r)
           { st with free_area := Function.update st.free_area i rest,
                     order := Function.update st.order p ((r : Nat) : Int) } p r) := by
  intro k
  induction k with
  | zero =>
    intro fuel st i r p rest hk hri hf hmin hfind hfree
    have hir : r = i := by omega
    subst hir
    rw [split_exact hfree, Nat.sub_self, descend]
  | succ m ih =>
    intro fuel st i r p rest hk hri hf hmin hfind hfree
    have hne : r ≠ i := by omega
    obtain ⟨f, rfl⟩ : ∃ f, fuel = f + 1 := ⟨fuel - 1, by omega⟩
    have hpos : ¬ (((2 : Nat) ^ (r + 1) : Nat) : Int) ≤ 0 := by
      have : (0 : Nat) < 2 ^ (r + 1) := Nat.pos_pow_of_pos (r + 1) (by omega)
      omega
    have hreq : req_order (((2 : Nat) ^ (r + 1) : Nat) : Int) = r + 1 :=
      req_order_pow (by omega)
    have hstep : find_nonempty st (r + 1) = some i := find_nonempty_step hfind (by omega)
    have hrec : buddy_alloc_fuel (f + 1) st (((2 : Nat) ^ (r + 1) : Nat) : Int)
        = (.ok (PAGE_TO_ADDR p),
           descend (i - (r + 1))
             { st with free_area := Function.update st.free_area i rest,
                       order := Function.update st.order p (((r + 1 : Nat) : Nat) : Int) }
             p (r + 1)) := by
      rw [buddy_alloc_fuel_succ, if_neg hpos, hreq, hstep]
      exact ih f st i (r + 1) p rest (by omega) (by omega) (by omega) (by omega) hstep hfree
    rw [split_rec_ok hne hrec, addr_page_round]
    have hkm : i - (r + 1) = m := by omega
    have hk1 : i - r = m + 1 := hk
    refine Prod.ext rfl ?_
    simp only []
    apply AState.ext
    · funext j
      simp only []
      by_cases hj0 : j = r
      · rw [hj0, Function.update_same, hkm, hk1, descend_free_area, descend_free_area]
        rw [if_neg (by omega : ¬(r + 1 ≤ r ∧ r < r + 1 + m))]
        rw [if_pos (by omega : r ≤ r ∧ r < r + (m + 1))]
      · rw [Function.update_noteq hj0, hkm, hk1, descend_free_area, descend_free_area]
        by_cases hj1 : r + 1 ≤ j ∧ j < r + 1 + m
        · rw [if_pos hj1, if_pos (by omega : r ≤ j ∧ j < r + (m + 1))]
        · rw [if_neg hj1, if_neg (by omega : ¬(r ≤ j ∧ j < r + (m + 1)))]
    · simp only []
      rw [hkm, hk1, descend_order, descend_order]
      simp only [Function.update_idem]

theorem buddy_alloc_ok_char {st : AState} {size : Int} {i p : Nat} {rest : List Nat}
    (hpos : ¬ size ≤ 0)
    (hfind : find_nonempty st (req_order size) = some i)
    (hfree : st.free_area i = p :: rest) :
    buddy_alloc st size
      = (.ok (PAGE_TO_ADDR p),
         descend (i - req_order size)
           { st with free_area := Function.update st.free_area i rest,
                     order := Function.update st.order p ((req_order size : Nat) : Int) }
           p (req_order size)) := by
  obtain ⟨h1, h2, h3, h4⟩ := find_nonempty_eq_some.mp hfind
  show buddy_alloc_fuel (31 + 1) st size = _
  rw [buddy_alloc_fuel_succ, if_neg hpos, hfind]
  exact split_step_ok (i - req_order size) 31 st i (req_order size) p rest rfl h1
    (by have hM : MAX_ORDER = 20 := rfl; omega) (min_le_req_order size) hfind hfree

theorem buddy_alloc_invalid {st : AState} {size : Int} (h : size ≤ 0) :
    buddy_alloc st size = (.invalidSize, st) := by
  show buddy_alloc_fuel (31 + 1) st size = _
  rw [buddy_alloc_fuel_succ, if_pos h]

theorem buddy_alloc_oom {st : AState} {size : Int} (hpos : ¬ size ≤ 0)
    (hfind : find_nonempty st (req_order size) = none) :
    buddy_alloc st size = (.outOfMemory, st) := by
  show buddy_alloc_fuel (31 + 1) st size = _
  rw [buddy_alloc_fuel_succ, if_neg hpos, hfind]

theorem buddy_alloc_shape (st : AState) (size : Int) :
    (size ≤ 0 ∧ buddy_alloc st size = (.invalidSize, st)) ∨
    (¬ size ≤ 0 ∧ find_nonempty st (req_order size) = none ∧
      buddy_alloc st size = (.outOfMemory, st)) ∨
    (∃ i p rest, ¬ size ≤ 0 ∧ find_nonempty st (req_order size) = some i ∧
      st.free_area i = p :: rest ∧
      buddy_alloc st size
        = (.ok (PAGE_TO_ADDR p),
           descend (i - req_order size)
             { st with free_area := Function.update st.free_area i rest,
                       order := Function.update st.order p ((req_order size : Nat) : Int) }
             p (req_order size))) := by
  by_cases hpos : size ≤ 0
  · exact Or.inl ⟨hpos, buddy_alloc_invalid hpos⟩
  · rcases hfind : find_nonempty st (req_order size) with _ | i
    · exact Or.inr (Or.inl ⟨hpos, rfl, buddy_alloc_oom hpos hfind⟩)
    · obtain ⟨h1, h2, h3, h4⟩ := find_nonempty_eq_some.mp hfind
      rcases List.exists_cons_of_ne_nil h3 with ⟨p, rest, hfree⟩
      exact Or.inr (Or.inr ⟨i, p, rest, hpos, rfl, hfree,
        buddy_alloc_ok_char hpos hfind hfree⟩)

theorem buddy_alloc_fail_state {st : AState} {size : Int}
    (h : ∀ a, (buddy_alloc st size).1 ≠ .ok a) :
    (buddy_alloc st size).2 = st := by
  rcases buddy_alloc_shape st size with ⟨_, he⟩ | ⟨_, _, he⟩ | ⟨i, p, rest, _, _, _, he⟩
  · rw [he]
  · rw [he]
  · exact absurd (by rw [he] : (buddy_alloc st size).1 = .ok (PAGE_TO_ADDR p))
      (h (PAGE_TO_ADDR p))

theorem alloc_iter_eq_of_ok {st : AState} {size : Int} {a : Nat}
    (h : (buddy_alloc st size).1 = .ok a) :
    buddy_alloc_iter st size = buddy_alloc st size := by
  rcases buddy_alloc_shape st size with ⟨_, he⟩ | ⟨_, _, he⟩ | ⟨i, p, rest, hpos, hfind, hfree, he⟩
  · rw [he] at h
    exact absurd h (by simp)
  · rw [he] at h
    exact absurd h (by simp)
  · rw [he]
    unfold buddy_alloc_iter
    rw [if_neg hpos, hfind]
    simp only []
    rw [hfree]

/-! ### Counting and disjointness -/

theorem no_double {st : AState} {L : List (Nat × Nat)}
    (hcov : covered st L = Multiset.range N_PAGES)
    {A B : Multiset Nat} (hAB : A + B ≤ covered st L) {x : Nat}
    (hxA : x ∈ A) (hxB : x ∈ B) : False := by
  have h1 : 0 < Multiset.count x A := Multiset.count_pos.mpr hxA
  have h2 : 0 < Multiset.count x B := Multiset.count_pos.mpr hxB
  have h3 := Multiset.count_le_of_le x hAB
  rw [Multiset.count_add] at h3
  have h4 : Multiset.count x (covered st L) ≤ 1 := by
    rw [hcov]
    exact Multiset.nodup_iff_count_le_one.mp (Multiset.nodup_range _) x
  omega

theorem free_live_disjoint {st : AState} {L : List (Nat × Nat)} (hInv : Inv st L)
    {o p : Nat} (hp : p ∈ st.free_area o) {q : Nat × Nat} (hq : q ∈ L) {x : Nat}
    (hxp : x ∈ pagesOf p o) (hxq : x ∈ pagesOf q.1 q.2) : False := by
  obtain ⟨hst, hcov⟩ := hInv
  have ho : o ≤ MAX_ORDER := (hst.free_align o p hp).2.1
  refine no_double hcov ?_ hxp hxq
  exact add_le_add (pagesOf_le_freeCoverF hp ho) (pagesOf_le_liveCover hq)

theorem live_live_disjoint {st : AState} {L : List (Nat × Nat)} (hInv : Inv st L)
    {q q' : Nat × Nat} (hq : q ∈ L) (hq' : q' ∈ L.erase q) {x : Nat}
    (hxq : x ∈ pagesOf q.1 q.2) (hxq' : x ∈ pagesOf q'.1 q'.2) : False := by
  obtain ⟨hst, hcov⟩ := hInv
  refine no_double hcov ?_ hxq hxq'
  have h1 : pagesOf q.1 q.2 + pagesOf q'.1 q'.2
      ≤ (L.map (fun w => pagesOf w.1 w.2)).sum :=
    sum_two_le L (fun w => pagesOf w.1 w.2) q q' hq hq'
  calc pagesOf q.1 q.2 + pagesOf q'.1 q'.2 ≤ liveCover L := h1
    _ ≤ covered st L := le_add_self

theorem free_free_disjoint_ne_order {st : AState} {L : List (Nat × Nat)} (hInv : Inv st L)
    {o p o' p' : Nat} (hp : p ∈ st.free_area o) (hp' : p' ∈ st.free_area o')
    (hoo : o ≠ o') {x : Nat}
    (hxp : x ∈ pagesOf p o) (hxp' : x ∈ pagesOf p' o') : False := by
  obtain ⟨hst, hcov⟩ := hInv
  have ho : o ≤ MAX_ORDER := (hst.free_align o p hp).2.1
  have ho' : o' ≤ MAX_ORDER := (hst.free_align o' p' hp').2.1
  refine no_double hcov ?_ hxp hxp'
  have hsum : (fun w => ((st.free_area w).map (fun q => pagesOf q w)).sum) o
        + (fun w => ((st.free_area w).map (fun q => pagesOf q w)).sum) o'
      ≤ ((List.range (MAX_ORDER + 1)).map
          (fun w => ((st.free_area w).map (fun q => pagesOf q w)).sum)).sum := by
    refine sum_two_le _ _ o o' (List.mem_range.mpr (by omega)) ?_
    rw [List.mem_erase_of_ne (Ne.symm hoo)]
    exact List.mem_range.mpr (by omega)
  have h1 : pagesOf p o ≤ (fun w => ((st.free_area w).map (fun q => pagesOf q w)).sum) o :=
    le_sum_of_mem (List.mem_map_of_mem _ hp)
  have h2 : pagesOf p' o' ≤ (fun w => ((st.free_area w).map (fun q => pagesOf q w)).sum) o' :=
    le_sum_of_mem (List.mem_map_of_mem _ hp')
  calc pagesOf p o + pagesOf p' o'
      ≤ (fun w => ((st.free_area w).map (fun q => pagesOf q w)).sum) o
        + (fun w => ((st.free_area w).map (fun q => pagesOf q w)).sum) o' :=
        add_le_add h1 h2
    _ ≤ freeCoverF st.free_area := hsum
    _ ≤ covered st L := self_le_add_right _ _

theorem free_free_disjoint_same_order {st : AState} {L : List (Nat × Nat)} (hInv : Inv st L)
    {o p p' : Nat} (hp : p ∈ st.free_area o) (hp' : p' ∈ (st.free_area o).erase p) {x : Nat}
    (hxp : x ∈ pagesOf p o) (hxp' : x ∈ pagesOf p' o) : False := by
  obtain ⟨hst, hcov⟩ := hInv
  have ho : o ≤ MAX_ORDER := (hst.free_align o p hp).2.1
  refine no_double hcov ?_ hxp hxp'
  have h1 : pagesOf p o + pagesOf p' o ≤ ((st.free_area o).map (fun q => pagesOf q o)).sum :=
    sum_two_le _ _ p p' hp hp'
  have h2 : ((st.free_area o).map (fun q => pagesOf q o)).sum ≤ freeCoverF st.free_area :=
    le_sum_of_mem (List.mem_map_of_mem _ (List.mem_range.mpr (by omega)))
  calc pagesOf p o + pagesOf p' o ≤ ((st.free_area o).map (fun q => pagesOf q o)).sum := h1
    _ ≤ freeCoverF st.free_area := h2
    _ ≤ covered st L := self_le_add_right _ _

theorem held_not_covered {st : AState} {L : List (Nat × Nat)} {P O : Nat}
    (hcov : covered st L + pagesOf P O = Multiset.range N_PAGES) {x : Nat}
    (hx : x ∈ pagesOf P O) : x ∉ covered st L := by
  intro hxc
  have h1 : 0 < Multiset.count x (covered st L) := Multiset.count_pos.mpr hxc
  have h2 : 0 < Multiset.count x (pagesOf P O) := Multiset.count_pos.mpr hx
  have h3 : Multiset.count x (covered st L) + Multiset.count x (pagesOf P O)
      = Multiset.count x (Multiset.range N_PAGES) := by
    rw [← Multiset.count_add, hcov]
  have h4 : Multiset.count x (Multiset.range N_PAGES) ≤ 1 :=
    Multiset.nodup_iff_count_le_one.mp (Multiset.nodup_range _) x
  omega

theorem live_mem_covered {st : AState} {L : List (Nat × Nat)} {q : Nat × Nat}
    (hq : q ∈ L) : (q.1 : Nat) ∈ covered st L := by
  have h1 : pagesOf q.1 q.2 ≤ liveCover L := pagesOf_le_liveCover hq
  have h2 : liveCover L ≤ covered st L := le_add_self
  exact Multiset.mem_of_le (h1.trans h2) (self_mem_pagesOf _ _)

theorem free_mem_covered {st : AState} {L : List (Nat × Nat)} {o p : Nat}
    (hp : p ∈ st.free_area o) (ho : o ≤ MAX_ORDER) : (p : Nat) ∈ covered st L := by
  have h1 : pagesOf p o ≤ freeCoverF st.free_area := pagesOf_le_freeCoverF hp ho
  have h2 : freeCoverF st.free_area ≤ covered st L := self_le_add_right _ _
  exact Multiset.mem_of_le (h1.trans h2) (self_mem_pagesOf _ _)

/-! ### The initial state satisfies the invariant -/

theorem freeCoverF_nil : freeCoverF (fun _ => []) = 0 := by
  unfold freeCoverF
  simp

theorem pagesOf_zero_max : pagesOf 0 MAX_ORDER = Multiset.range N_PAGES := by
  unfold pagesOf
  have h1 : (List.range (2 ^ (MAX_ORDER - MIN_ORDER))).map (fun q => 0 + q)
      = List.range N_PAGES := by
    have h2 : N_PAGES = 2 ^ (MAX_ORDER - MIN_ORDER) := by norm_num
    rw [h2]
    simp
  rw [h1]
  rfl

theorem liveCover_nil : liveCover [] = 0 := rfl

theorem inv_init : Inv buddy_init [] := by
  constructor
  · constructor
    · intro o p hp
      show MIN_ORDER ≤ o ∧ o ≤ MAX_ORDER ∧ 2 ^ (o - MIN_ORDER) ∣ p
      by_cases ho : o = MAX_ORDER
      · subst ho
        have hp2 : p ∈ ([0] : List Nat) := by
          have h0 : buddy_init.free_area MAX_ORDER = [0] := rfl
          rw [h0] at hp
          exact hp
        have : p = 0 := by simpa using hp2
        subst this
        exact ⟨by decide, le_rfl, dvd_zero _⟩
      · have h0 : buddy_init.free_area o = [] := by
          show Function.update (fun _ => ([] : List Nat)) MAX_ORDER [0] o = []
          rw [Function.update_noteq ho]
        rw [h0] at hp
        exact absurd hp (List.not_mem_nil p)
    · intro q hq
      exact absurd hq (List.not_mem_nil q)
    · intro q hq
      exact absurd hq (List.not_mem_nil q)
  · show freeCoverF buddy_init.free_area + liveCover [] = Multiset.range N_PAGES
    rw [liveCover_nil, add_zero]
    have h1 : buddy_init.free_area
        = Function.update (fun _ => []) MAX_ORDER (0 :: (fun _ : Nat => ([] : List Nat)) MAX_ORDER) := rfl
    rw [h1, freeCoverF_cons (fun _ => []) MAX_ORDER 0 (by omega), freeCoverF_nil,
      zero_add, pagesOf_zero_max]

/-! ### Buddy address arithmetic -/

theorem page_mul_pow {o : Nat} (ho : MIN_ORDER ≤ o) (m : Nat) :
    m * 2 ^ (o - MIN_ORDER) * PAGE_SIZE = m * 2 ^ o := by
  have he : o - MIN_ORDER + MIN_ORDER = o := by omega
  rw [Nat.mul_assoc, ← Nat.pow_add, he]

theorem page_to_addr_inj {x y : Nat} (h : PAGE_TO_ADDR x = PAGE_TO_ADDR y) : x = y := by
  unfold PAGE_TO_ADDR at h
  exact Nat.eq_of_mul_eq_mul_right (by norm_num) h

theorem buddy_addr_even {m o : Nat} (ho : MIN_ORDER ≤ o) (hm : m % 2 = 0) :
    BUDDY_ADDR (PAGE_TO_ADDR (m * 2 ^ (o - MIN_ORDER))) o
      = PAGE_TO_ADDR ((m + 1) * 2 ^ (o - MIN_ORDER)) := by
  unfold BUDDY_ADDR PAGE_TO_ADDR
  rw [page_mul_pow ho m, page_mul_pow ho (m + 1)]
  exact xor_pow_even hm

theorem buddy_addr_odd {m o : Nat} (ho : MIN_ORDER ≤ o) (hm : m % 2 = 1) :
    BUDDY_ADDR (PAGE_TO_ADDR (m * 2 ^ (o - MIN_ORDER))) o
      = PAGE_TO_ADDR ((m - 1) * 2 ^ (o - MIN_ORDER)) := by
  unfold BUDDY_ADDR PAGE_TO_ADDR
  rw [page_mul_pow ho m, page_mul_pow ho (m - 1)]
  exact xor_pow_odd hm

/-! ### Allocation preserves the invariant -/

theorem alloc_preserve {st st' : AState} {L : List (Nat × Nat)} {size : Int} {a : Nat}
    (hInv : Inv st L) (hok : buddy_alloc st size = (.ok a, st')) :
    Inv st' ((ADDR_TO_PAGE a, req_order size) :: L) := by
  rcases buddy_alloc_shape st size with ⟨_, he⟩ | ⟨_, _, he⟩ |
    ⟨i, p, rest, hpos, hfind, hfree, he⟩
  · rw [he] at hok
    rw [Prod.mk.injEq] at hok
    exact absurd hok.1 (by simp)
  · rw [he] at hok
    rw [Prod.mk.injEq] at hok
    exact absurd hok.1 (by simp)
  · rw [he] at hok
    rw [Prod.mk.injEq] at hok
    obtain ⟨h1, h2⟩ := hok
    have ha : a = PAGE_TO_ADDR p := by
      cases h1
      rfl
    subst ha
    subst h2
    rw [addr_page_round]
    obtain ⟨hri, hiM, hine, hbelow⟩ := find_nonempty_eq_some.mp hfind
    have hr12 : MIN_ORDER ≤ req_order size := min_le_req_order size
    have hpmem : p ∈ st.free_area i := by
      rw [hfree]
      exact List.mem_cons_self _ _
    obtain ⟨hi12, hi20, hpal⟩ := hInv.1.free_align i p hpmem
    have hrk : req_order size + (i - req_order size) = i := by omega
    constructor
    · constructor
      · intro o q hq
        rw [descend_free_area, hrk] at hq
        by_cases ho : req_order size ≤ o ∧ o < i
        · rw [if_pos ho] at hq
          rcases List.mem_cons.mp hq with hq1 | hq2
          · subst hq1
            have hdv : (2 : Nat) ^ o / PAGE_SIZE = 2 ^ (o - MIN_ORDER) :=
              Nat.pow_div (by omega) (by omega)
            rw [hdv]
            refine ⟨by omega, by omega, ?_⟩
            exact dvd_add ((pow_dvd_pow 2 (by omega)).trans hpal) dvd_rfl
          · have hq3 : q ∈ Function.update st.free_area i rest o := hq2
            rw [Function.update_noteq (by omega : o ≠ i)] at hq3
            exact hInv.1.free_align o q hq3
        · rw [if_neg ho] at hq
          have hq3 : q ∈ Function.update st.free_area i rest o := hq
          by_cases hoi : o = i
          · subst hoi
            rw [Function.update_same] at hq3
            have hq4 : q ∈ st.free_area o := by
              rw [hfree]
              exact List.mem_cons_of_mem _ hq3
            exact hInv.1.free_align o q hq4
          · rw [Function.update_noteq hoi] at hq3
            exact hInv.1.free_align o q hq3
      · intro q hq
        rcases List.mem_cons.mp hq with hq1 | hq2
        · subst hq1
          exact ⟨hr12, by omega, (pow_dvd_pow 2 (by omega)).trans hpal⟩
        · exact hInv.1.live_range q hq2
      · intro q hq
        rw [descend_order]
        rcases List.mem_cons.mp hq with hq1 | hq2
        · subst hq1
          show Function.update st.order p ((req_order size : Nat) : Int) p = _
          rw [Function.update_same]
        · have hne : q.1 ≠ p := by
            intro heq
            have hxp : q.1 ∈ pagesOf p i := by
              rw [heq]
              exact self_mem_pagesOf p i
            exact free_live_disjoint hInv hpmem hq2 hxp (self_mem_pagesOf q.1 q.2)
          show Function.update st.order p ((req_order size : Nat) : Int) q.1 = _
          rw [Function.update_noteq hne]
          exact hInv.1.live_order q hq2
    · show freeCoverF _ + liveCover _ = _
      rw [descend_freeCover _ _ _ _ hr12 (by omega)]
      show freeCoverF (Function.update st.free_area i rest)
          + rightsPages p (req_order size) (i - req_order size)
          + liveCover ((p, req_order size) :: L) = Multiset.range N_PAGES
      have hupd := freeCoverF_update st.free_area i rest (by omega)
      rw [hfree, List.map_cons, List.sum_cons] at hupd
      have hF : freeCoverF (Function.update st.free_area i rest) + pagesOf p i
          = freeCoverF st.free_area := by
        have h3 : freeCoverF (Function.update st.free_area i rest) + pagesOf p i
              + (rest.map (fun q => pagesOf q i)).sum
            = freeCoverF st.free_area + (rest.map (fun q => pagesOf q i)).sum := by
          calc freeCoverF (Function.update st.free_area i rest) + pagesOf p i
                + (rest.map (fun q => pagesOf q i)).sum
              = freeCoverF (Function.update st.free_area i rest)
                + (pagesOf p i + (rest.map (fun q => pagesOf q i)).sum) := by abel
            _ = freeCoverF st.free_area + (rest.map (fun q => pagesOf q i)).sum := hupd
        exact add_right_cancel h3
      have htel : pagesOf p (req_order size) + rightsPages p (req_order size)
            (i - req_order size) = pagesOf p i := by
        rw [rightsPages_telescope _ _ _ hr12, hrk]
      have hlc : liveCover ((p, req_order size) :: L)
          = pagesOf p (req_order size) + liveCover L := by
        show (((p, req_order size) :: L).map (fun q => pagesOf q.1 q.2)).sum = _
        rw [List.map_cons, List.sum_cons]
        rfl
      rw [hlc]
      calc freeCoverF (Function.update st.free_area i rest)
            + rightsPages p (req_order size) (i - req_order size)
            + (pagesOf p (req_order size) + liveCover L)
          = (freeCoverF (Function.update st.free_area i rest) + pagesOf p i) + liveCover L := by
            rw [← htel]
            abel
        _ = freeCoverF st.free_area + liveCover L := by rw [hF]
        _ = covered st L := rfl
        _ = Multiset.range N_PAGES := hInv.2

/-! ### find_buddy and the free loop -/

theorem find_buddy_none {st : AState} {address o : Nat} (h : find_buddy st address o = none)
    {q : Nat} (hq : q ∈ st.free_area o) : BUDDY_ADDR address o ≠ PAGE_TO_ADDR q := by
  intro heq
  have h2 := List.find?_eq_none.mp h q hq
  rw [heq] at h2
  simp at h2

theorem find_buddy_some {st : AState} {address o bp : Nat}
    (h : find_buddy st address o = some bp) :
    bp ∈ st.free_area o ∧ BUDDY_ADDR address o = PAGE_TO_ADDR bp := by
  refine ⟨List.mem_of_find?_eq_some h, ?_⟩
  have h2 := List.find?_some h
  exact eq_of_beq h2

theorem buddy_free_loop_succ (fuel : Nat) (st : AState) (address index o : Nat) :
    buddy_free_loop (fuel + 1) st address index o
      = match find_buddy st address o with
        | none =>
            { st with order := Function.update st.order index UNSET,
                      free_area := Function.update st.free_area o (index :: st.free_area o) }
        | some bp =>
            if o < MAX_ORDER then
              buddy_free_loop fuel
                { st with free_area :=
                    Function.update st.free_area o ((st.free_area o).erase bp) }
                (if PAGE_TO_ADDR bp < address then PAGE_TO_ADDR bp else address)
                (ADDR_TO_PAGE (if PAGE_TO_ADDR bp < address then PAGE_TO_ADDR bp else address))
                (o + 1)
            else
              { st with free_area :=
                  Function.update st.free_area o ((st.free_area o).erase bp) } := rfl

theorem free_loop_spec : ∀ (fuel : Nat) (st : AState) (address index o : Nat)
    (L : List (Nat × Nat)), LoopInv st address index o L →
    MAX_ORDER + 1 - o ≤ fuel →
    ∃ O P rest,
      o ≤ O ∧ O ≤ MAX_ORDER ∧ 2 ^ (O - MIN_ORDER) ∣ P ∧ P ≤ index ∧
      pagesOf index o ≤ pagesOf P O ∧
      (buddy_free_loop fuel st address index o).free_area O = P :: rest ∧
      ADDR_TO_PAGE (BUDDY_ADDR (PAGE_TO_ADDR P) O) ∉ (P :: rest) ∧
      (buddy_free_loop fuel st address index o).order P = UNSET ∧
      (∀ o', MAX_ORDER < o' →
        (buddy_free_loop fuel st address index o).free_area o' = st.free_area o') ∧
      Inv (buddy_free_loop fuel st address index o) L := by
  intro fuel
  induction fuel with
  | zero =>
    intro st address index o L hLI hfuel
    have h1 := hLI.omax
    omega
  | succ f ih =>
    intro st address index o L hLI hfuel
    obtain ⟨haddr, hal, ho12, ho20, hcov, hstinv⟩ := hLI
    obtain ⟨m, hm⟩ := hal
    rw [Nat.mul_comm] at hm
    have hpow : (0 : Nat) < 2 ^ (o - MIN_ORDER) := Nat.pos_pow_of_pos _ (by omega)
    rcases hfb : find_buddy st address o with _ | bp
    · -- the buddy is not free: insert the block at hand into free_area[o]
      have hstep : buddy_free_loop (f + 1) st address index o
          = { st with order := Function.update st.order index UNSET,
                      free_area := Function.update st.free_area o (index :: st.free_area o) } := by
        rw [buddy_free_loop_succ, hfb]
      refine ⟨o, index, st.free_area o, le_rfl, ho20, ⟨m, by rw [hm]; ring⟩, le_rfl, le_rfl, ?_, ?_, ?_, ?_, ?_⟩
      · rw [hstep]
        show Function.update st.free_area o (index :: st.free_area o) o = _
        rw [Function.update_same]
      · -- the buddy page of the inserted block is not in the new list
        intro hmem
        have hbne : ADDR_TO_PAGE (BUDDY_ADDR (PAGE_TO_ADDR index) o) ≠ index ∧
            BUDDY_ADDR (PAGE_TO_ADDR index) o
              = PAGE_TO_ADDR (ADDR_TO_PAGE (BUDDY_ADDR (PAGE_TO_ADDR index) o)) := by
          rcases Nat.mod_two_eq_zero_or_one m with hpar | hpar
          · rw [hm, buddy_addr_even ho12 hpar, addr_page_round]
            constructor
            · intro heq
              have := Nat.eq_of_mul_eq_mul_right hpow heq
              omega
            · rfl
          · rw [hm, buddy_addr_odd ho12 hpar, addr_page_round]
            constructor
            · intro heq
              have := Nat.eq_of_mul_eq_mul_right hpow heq
              omega
            · rfl
        rcases List.mem_cons.mp hmem with hmem1 | hmem2
        · exact hbne.1 hmem1
        · exact find_buddy_none hfb hmem2 (by rw [haddr]; exact hbne.2)
      · rw [hstep]
        show Function.update st.order index UNSET index = UNSET
        rw [Function.update_same]
      · intro o' ho'
        rw [hstep]
        show Function.update st.free_area o (index :: st.free_area o) o' = _
        rw [Function.update_noteq (by omega : o' ≠ o)]
      · rw [hstep]
        constructor
        · constructor
          · intro o'' q hq
            have hq2 : q ∈ Function.update st.free_area o (index :: st.free_area o) o'' := hq
            by_cases hoo : o'' = o
            · subst hoo
              rw [Function.update_same] at hq2
              rcases List.mem_cons.mp hq2 with hq3 | hq4
              · subst hq3
                exact ⟨ho12, ho20, ⟨m, by rw [hm]; ring⟩⟩
              · exact hstinv.free_align o'' q hq4
            · rw [Function.update_noteq hoo] at hq2
              exact hstinv.free_align o'' q hq2
          · exact hstinv.live_range
          · intro q hq
            have hne : q.1 ≠ index := by
              intro heq
              have hqc : (q.1 : Nat) ∈ covered st L := live_mem_covered hq
              rw [heq] at hqc
              exact held_not_covered hcov (self_mem_pagesOf index o) hqc
            show Function.update st.order index UNSET q.1 = _
            rw [Function.update_noteq hne]
            exact hstinv.live_order q hq
        · show freeCoverF (Function.update st.free_area o (index :: st.free_area o))
              + liveCover L = Multiset.range N_PAGES
          rw [freeCoverF_cons st.free_area o index (by omega)]
          calc freeCoverF st.free_area + pagesOf index o + liveCover L
              = freeCoverF st.free_area + liveCover L + pagesOf index o := by abel
            _ = covered st L + pagesOf index o := rfl
            _ = Multiset.range N_PAGES := hcov
    · -- the buddy is free: merge and continue one order up
      obtain ⟨hbmem, hbeq⟩ := find_buddy_some hfb
      have holt : o < MAX_ORDER := by
        by_contra hnlt
        have h20 : o = MAX_ORDER := by omega
        subst h20
        have hle : pagesOf index MAX_ORDER ≤ Multiset.range N_PAGES := by
          rw [← hcov]
          exact le_add_self
        have hNP : (2 : Nat) ^ (MAX_ORDER - MIN_ORDER) = N_PAGES := by decide
        have hmem0 : index + (2 ^ (MAX_ORDER - MIN_ORDER) - 1)
            ∈ pagesOf index MAX_ORDER := by
          refine mem_pagesOf.mpr ⟨by omega, ?_⟩
          have : (0 : Nat) < 2 ^ (MAX_ORDER - MIN_ORDER) := Nat.pos_pow_of_pos _ (by omega)
          omega
        have hmem1 := Multiset.mem_of_le hle hmem0
        rw [Multiset.mem_range] at hmem1
        have hidx0 : index = 0 := by omega
        have hcov0 : covered st L = 0 := by
          rw [hidx0, pagesOf_zero_max] at hcov
          have h0 : covered st L + Multiset.range N_PAGES
              = 0 + Multiset.range N_PAGES := by
            rw [hcov, zero_add]
          exact add_right_cancel h0
        have h1 : pagesOf bp MAX_ORDER ≤ covered st L :=
          le_trans (pagesOf_le_freeCoverF hbmem le_rfl) (self_le_add_right _ _)
        rw [hcov0] at h1
        have h2 := Multiset.mem_of_le h1 (self_mem_pagesOf bp MAX_ORDER)
        exact absurd h2 (Multiset.not_mem_zero _)
      have hstep : buddy_free_loop (f + 1) st address index o
          = if o < MAX_ORDER then
              buddy_free_loop f
                { st with free_area := Function.update st.free_area o ((st.free_area o).erase bp) }
                (if PAGE_TO_ADDR bp < address then PAGE_TO_ADDR bp else address)
                (ADDR_TO_PAGE (if PAGE_TO_ADDR bp < address then PAGE_TO_ADDR bp else address))
                (o + 1)
            else
              { st with free_area := Function.update st.free_area o ((st.free_area o).erase bp) } := by
        rw [buddy_free_loop_succ, hfb]
      rw [if_pos holt] at hstep
      have hcov1 : covered { st with free_area := Function.update st.free_area o ((st.free_area o).erase bp) } L + pagesOf bp o = covered st L := by
        show freeCoverF (Function.update st.free_area o ((st.free_area o).erase bp))
            + liveCover L + pagesOf bp o = freeCoverF st.free_area + liveCover L
        rw [freeCoverF_erase st.free_area o bp hbmem (by omega)]
        abel
      have hstinv1 : StInv { st with free_area := Function.update st.free_area o ((st.free_area o).erase bp) } L := by
        constructor
        · intro o'' q hq
          have hq2 : q ∈ Function.update st.free_area o ((st.free_area o).erase bp) o'' := hq
          by_cases hoo : o'' = o
          · subst hoo
            rw [Function.update_same] at hq2
            exact hstinv.free_align o'' q (List.mem_of_mem_erase hq2)
          · rw [Function.update_noteq hoo] at hq2
            exact hstinv.free_align o'' q hq2
        · exact hstinv.live_range
        · exact hstinv.live_order
      have hsucc : o + 1 - MIN_ORDER = (o - MIN_ORDER) + 1 := by omega
      rcases Nat.mod_two_eq_zero_or_one m with hpar | hpar
      · -- index is the lower (even) buddy: the held block keeps its address
        have hbp : bp = (m + 1) * 2 ^ (o - MIN_ORDER) := by
          apply page_to_addr_inj
          rw [← hbeq, haddr, hm]
          exact buddy_addr_even ho12 hpar
        have hnlt : ¬ PAGE_TO_ADDR bp < address := by
          rw [haddr, hbp, hm]
          unfold PAGE_TO_ADDR
          have h1 : m * 2 ^ (o - MIN_ORDER) ≤ (m + 1) * 2 ^ (o - MIN_ORDER) :=
            Nat.mul_le_mul_right _ (by omega)
          have h2 : m * 2 ^ (o - MIN_ORDER) * PAGE_SIZE
              ≤ (m + 1) * 2 ^ (o - MIN_ORDER) * PAGE_SIZE :=
            Nat.mul_le_mul_right _ h1
          omega
        rw [if_neg hnlt] at hstep
        rw [haddr, addr_page_round] at hstep
        have hsplit : pagesOf index (o + 1) = pagesOf index o + pagesOf bp o := by
          rw [pagesOf_split ho12, hbp, hm]
          have : m * 2 ^ (o - MIN_ORDER) + 2 ^ (o - MIN_ORDER)
              = (m + 1) * 2 ^ (o - MIN_ORDER) := by ring
          rw [this]
        have hLI1 : LoopInv { st with free_area := Function.update st.free_area o ((st.free_area o).erase bp) } (PAGE_TO_ADDR index) index (o + 1) L := by
          refine ⟨rfl, ?_, by omega, by omega, ?_, hstinv1⟩
          · obtain ⟨u, hu⟩ : ∃ u, m = 2 * u := ⟨m / 2, by omega⟩
            refine ⟨u, ?_⟩
            rw [hm, hu, hsucc, Nat.pow_succ]
            ring
          · calc covered { st with free_area := Function.update st.free_area o ((st.free_area o).erase bp) } L + pagesOf index (o + 1)
                = covered { st with free_area := Function.update st.free_area o ((st.free_area o).erase bp) } L + pagesOf bp o + pagesOf index o := by
                  rw [hsplit]
                  abel
              _ = covered st L + pagesOf index o := by rw [hcov1]
              _ = Multiset.range N_PAGES := hcov
        rw [haddr]
        obtain ⟨O, P, rest, hoO, hO20, hPal, hPle, hpag, hhead, hbud, hord, habove, hinv⟩ :=
          ih _ _ index (o + 1) L hLI1 (by omega)
        refine ⟨O, P, rest, by omega, hO20, hPal, hPle, ?_, ?_, hbud, ?_, ?_, ?_⟩
        · calc pagesOf index o ≤ pagesOf index (o + 1) := by
                rw [hsplit]
                exact self_le_add_right _ _
            _ ≤ pagesOf P O := hpag
        · rw [hstep]
          exact hhead
        · rw [hstep]
          exact hord
        · intro o' ho'
          rw [hstep, habove o' ho']
          show Function.update st.free_area o ((st.free_area o).erase bp) o' = _
          rw [Function.update_noteq (by omega : o' ≠ o)]
        · rw [hstep]
          exact hinv
      · -- the buddy is the lower block: move the held block down to it
        have hm1 : 1 ≤ m := by omega
        have hbp : bp = (m - 1) * 2 ^ (o - MIN_ORDER) := by
          apply page_to_addr_inj
          rw [← hbeq, haddr, hm]
          exact buddy_addr_odd ho12 hpar
        have hlt : PAGE_TO_ADDR bp < address := by
          rw [haddr, hbp, hm]
          unfold PAGE_TO_ADDR
          have h1 : (m - 1) * 2 ^ (o - MIN_ORDER) < m * 2 ^ (o - MIN_ORDER) :=
            (Nat.mul_lt_mul_right hpow).mpr (by omega)
          have h2 : (m - 1) * 2 ^ (o - MIN_ORDER) * PAGE_SIZE
              < m * 2 ^ (o - MIN_ORDER) * PAGE_SIZE := by
            have hp : (0 : Nat) < PAGE_SIZE := by norm_num
            exact (Nat.mul_lt_mul_right hp).mpr h1
          omega
        rw [if_pos hlt, addr_page_round] at hstep
        have hbple : bp ≤ index := by
          rw [hbp, hm]
          exact Nat.mul_le_mul_right _ (by omega)
        have hsplit : pagesOf bp (o + 1) = pagesOf bp o + pagesOf index o := by
          rw [pagesOf_split ho12, hbp, hm]
          have : (m - 1) * 2 ^ (o - MIN_ORDER) + 2 ^ (o - MIN_ORDER)
              = m * 2 ^ (o - MIN_ORDER) := by
            rw [Nat.sub_mul, one_mul]
            have := Nat.mul_le_mul_right (2 ^ (o - MIN_ORDER)) hm1
            omega
          rw [this]
        have hLI1 : LoopInv { st with free_area := Function.update st.free_area o ((st.free_area o).erase bp) } (PAGE_TO_ADDR bp) bp (o + 1) L := by
          refine ⟨rfl, ?_, by omega, by omega, ?_, hstinv1⟩
          · obtain ⟨u, hu⟩ : ∃ u, m - 1 = 2 * u := ⟨(m - 1) / 2, by omega⟩
            refine ⟨u, ?_⟩
            rw [hbp, hu, hsucc, Nat.pow_succ]
            ring
          · calc covered { st with free_area := Function.update st.free_area o ((st.free_area o).erase bp) } L + pagesOf bp (o + 1)
                = covered { st with free_area := Function.update st.free_area o ((st.free_area o).erase bp) } L + pagesOf bp o + pagesOf index o := by
                  rw [hsplit]
                  abel
              _ = covered st L + pagesOf index o := by rw [hcov1]
              _ = Multiset.range N_PAGES := hcov
        obtain ⟨O, P, rest, hoO, hO20, hPal, hPle, hpag, hhead, hbud, hord, habove, hinv⟩ :=
          ih _ _ bp (o + 1) L hLI1 (by omega)
        refine ⟨O, P, rest, by omega, hO20, hPal, by omega, ?_, ?_, hbud, ?_, ?_, ?_⟩
        · calc pagesOf index o ≤ pagesOf bp (o + 1) := by
                rw [hsplit]
                exact le_add_self
            _ ≤ pagesOf P O := hpag
        · rw [hstep]
          exact hhead
        · rw [hstep]
          exact hord
        · intro o' ho'
          rw [hstep, habove o' ho']
          show Function.update st.free_area o ((st.free_area o).erase bp) o' = _
          rw [Function.update_noteq (by omega : o' ≠ o)]
        · rw [hstep]
          exact hinv

/-! ### Freeing a live allocation -/

theorem free_preserve {st : AState} {L : List (Nat × Nat)} {p o : Nat}
    (hInv : Inv st L) (hq : (p, o) ∈ L) :
    ∃ O P rest,
      o ≤ O ∧ O ≤ MAX_ORDER ∧ 2 ^ (O - MIN_ORDER) ∣ P ∧ P ≤ p ∧
      pagesOf p o ≤ pagesOf P O ∧
      (buddy_free st (PAGE_TO_ADDR p)).free_area O = P :: rest ∧
      ADDR_TO_PAGE (BUDDY_ADDR (PAGE_TO_ADDR P) O) ∉ (P :: rest) ∧
      (buddy_free st (PAGE_TO_ADDR p)).order P = UNSET ∧
      (∀ o', MAX_ORDER < o' →
        (buddy_free st (PAGE_TO_ADDR p)).free_area o' = st.free_area o') ∧
      Inv (buddy_free st (PAGE_TO_ADDR p)) (L.erase (p, o)) := by
  obtain ⟨hst, hcov⟩ := hInv
  have hord : st.order p = (o : Int) := hst.live_order (p, o) hq
  obtain ⟨h12, h20, hal⟩ := hst.live_range (p, o) hq
  have hunf : buddy_free st (PAGE_TO_ADDR p)
      = buddy_free_loop FUEL st (PAGE_TO_ADDR p) p o := by
    unfold buddy_free
    rw [addr_page_round, hord]
    rfl
  have hperm : L.Perm ((p, o) :: L.erase (p, o)) := List.perm_cons_erase hq
  have hlc : liveCover L = pagesOf p o + liveCover (L.erase (p, o)) := by
    show (L.map (fun w => pagesOf w.1 w.2)).sum = _
    rw [(hperm.map (fun w => pagesOf w.1 w.2)).sum_eq, List.map_cons, List.sum_cons]
    rfl
  have hLI : LoopInv st (PAGE_TO_ADDR p) p o (L.erase (p, o)) := by
    refine ⟨rfl, hal, h12, h20, ?_, ?_⟩
    · calc covered st (L.erase (p, o)) + pagesOf p o
          = freeCoverF st.free_area + (pagesOf p o + liveCover (L.erase (p, o))) := by
            show freeCoverF st.free_area + liveCover (L.erase (p, o)) + pagesOf p o = _
            abel
        _ = freeCoverF st.free_area + liveCover L := by rw [hlc]
        _ = Multiset.range N_PAGES := hcov
    · constructor
      · exact hst.free_align
      · intro w hw
        exact hst.live_range w (List.mem_of_mem_erase hw)
      · intro w hw
        exact hst.live_order w (List.mem_of_mem_erase hw)
  rw [hunf]
  exact free_loop_spec FUEL st (PAGE_TO_ADDR p) p o (L.erase (p, o)) hLI
    (by have hM : MAX_ORDER = 20 := rfl; have hF : FUEL = 32 := rfl; omega)

/-! ### Every reachable state satisfies the invariant -/

theorem reach_inv : ∀ {st : AState} {L : List (Nat × Nat)}, Reach st L → Inv st L := by
  intro st L h
  induction h with
  | init => exact inv_init
  | allocOk hR hok ih => exact alloc_preserve ih hok
  | allocFail hR heq hne ih =>
    have hfs := buddy_alloc_fail_state (fun a ha => hne a (by rw [heq] at ha; exact ha))
    rename_i st0 L0 size0 e0 st0'
    have hfs := buddy_alloc_fail_state (fun a ha => hne a (by rw [heq] at ha; exact ha))
    rw [heq] at hfs
    have h4 : st0' = st0 := hfs
    rw [h4]
    exact ih
  | free hR hmem hfree ih =>
    obtain ⟨O, P, rest, -, -, -, -, -, -, -, -, -, hinv⟩ := free_preserve ih hmem
    rw [hfree] at hinv
    exact hinv

theorem free_loop_fuel_irrel : ∀ (f1 f2 : Nat) (st : AState) (address index o : Nat),
    o ≤ MAX_ORDER → MAX_ORDER + 1 - o ≤ f1 → MAX_ORDER + 1 - o ≤ f2 →
    buddy_free_loop f1 st address index o = buddy_free_loop f2 st address index o := by
  intro f1
  induction f1 with
  | zero =>
    intro f2 st address index o ho h1 h2
    omega
  | succ g1 ih =>
    intro f2 st address index o ho h1 h2
    obtain ⟨g2, rfl⟩ : ∃ g2, f2 = g2 + 1 := ⟨f2 - 1, by omega⟩
    rw [buddy_free_loop_succ, buddy_free_loop_succ]
    rcases hfb : find_buddy st address o with _ | bp
    · rfl
    · simp only []
      by_cases holt : o < MAX_ORDER
      · rw [if_pos holt, if_pos holt]
        exact ih g2 _ _ _ (o + 1) (by omega) (by omega) (by omega)
      · rw [if_neg holt, if_neg holt]

/-! ### The claims -/

/-- C3: in every state reachable from `buddy_init` by allocate/free calls
respecting the free precondition, the multiset union of the page ranges of all
free-list members at every order, plus all live allocations, equals the arena
`[0, N_PAGES)` exactly once, with no overlaps (each page has multiplicity one). -/
theorem c3_coverage_partition {st : AState} {L : List (Nat × Nat)} (h : Reach st L) :
    covered st L = Multiset.range N_PAGES :=
  (reach_inv h).2

theorem c3_coverage_partition_witness : covered buddy_init [] = Multiset.range N_PAGES :=
  c3_coverage_partition Reach.init

/-- C1: a successful `allocate(s)` returning address `A` (an offset from the
arena base) yields a block of order `r = max(MIN_ORDER, ceil(log2 s))`: `A` is
aligned to `2^r`, the block's pages are disjoint from every free-list member
and from every live allocation, and the page record at `index_of(A)` holds
order `r` from the return of allocate for as long as the allocation stays
live, i.e. until `free(A)` is called (the ghost list `L` records exactly the
not-yet-freed allocations). -/
theorem c1_alloc_correct {st st' : AState} {L : List (Nat × Nat)} {size : Int} {a : Nat}
    (hR : Reach st L) (hok : buddy_alloc st size = (.ok a, st')) :
    req_order size = max MIN_ORDER (Nat.clog 2 size.toNat) ∧
    2 ^ req_order size ∣ a ∧
    st'.order (ADDR_TO_PAGE a) = ((req_order size : Nat) : Int) ∧
    (∀ o q, q ∈ st'.free_area o →
      ∀ x, x ∈ pagesOf (ADDR_TO_PAGE a) (req_order size) → x ∉ pagesOf q o) ∧
    (∀ q ∈ L, ∀ x, x ∈ pagesOf (ADDR_TO_PAGE a) (req_order size) →
      x ∉ pagesOf q.1 q.2) ∧
    (∀ st'' L'', Reach st'' L'' → (ADDR_TO_PAGE a, req_order size) ∈ L'' →
      st''.order (ADDR_TO_PAGE a) = ((req_order size : Nat) : Int)) := by
  have hInv := reach_inv hR
  have hInv' := alloc_preserve hInv hok
  refine ⟨req_order_def size, ?_, ?_, ?_, ?_, ?_⟩
  · rcases buddy_alloc_shape st size with ⟨_, he⟩ | ⟨_, _, he⟩ |
      ⟨i, p, rest, hpos, hfind, hfree, he⟩
    · rw [he] at hok
      rw [Prod.mk.injEq] at hok
      exact absurd hok.1 (by simp)
    · rw [he] at hok
      rw [Prod.mk.injEq] at hok
      exact absurd hok.1 (by simp)
    · rw [he] at hok
      rw [Prod.mk.injEq] at hok
      have ha : a = PAGE_TO_ADDR p := by
        cases hok.1
        rfl
      have hpmem : p ∈ st.free_area i := by
        rw [hfree]
        exact List.mem_cons_self _ _
      obtain ⟨-, -, hpal⟩ := hInv.1.free_align i p hpmem
      obtain ⟨hri, hiM, -, -⟩ := find_nonempty_eq_some.mp hfind
      have hr12 := min_le_req_order size
      have hdvd : 2 ^ (req_order size - MIN_ORDER) ∣ p :=
        (pow_dvd_pow 2 (by omega)).trans hpal
      obtain ⟨c, hc⟩ := hdvd
      rw [ha]
      refine ⟨c, ?_⟩
      show p * 2 ^ MIN_ORDER = 2 ^ req_order size * c
      have he1 : req_order size - MIN_ORDER + MIN_ORDER = req_order size := by omega
      have hpow : (2 : Nat) ^ (req_order size - MIN_ORDER) * 2 ^ MIN_ORDER
          = 2 ^ req_order size := by
        rw [← Nat.pow_add, he1]
      rw [hc]
      calc 2 ^ (req_order size - MIN_ORDER) * c * 2 ^ MIN_ORDER
          = 2 ^ (req_order size - MIN_ORDER) * 2 ^ MIN_ORDER * c := by ring
        _ = 2 ^ req_order size * c := by rw [hpow]
  · exact hInv'.1.live_order (ADDR_TO_PAGE a, req_order size) (List.mem_cons_self _ _)
  · intro o q hqo x hx1 hx2
    exact free_live_disjoint hInv' hqo (List.mem_cons_self _ _) hx2 hx1
  · intro q hq x hx1 hx2
    refine live_live_disjoint hInv' (List.mem_cons_self _ _) ?_ hx1 hx2
    rw [List.erase_cons_head]
    exact hq
  · intro st'' L'' hR'' hmem
    exact (reach_inv hR'').1.live_order _ hmem

theorem c1_alloc_correct_witness :
    req_order 1048576 = max MIN_ORDER (Nat.clog 2 (1048576 : Int).toNat) ∧
    2 ^ req_order 1048576 ∣ 0 ∧
    stMiB.order (ADDR_TO_PAGE 0) = ((req_order 1048576 : Nat) : Int) ∧
    (∀ o q, q ∈ stMiB.free_area o →
      ∀ x, x ∈ pagesOf (ADDR_TO_PAGE 0) (req_order 1048576) → x ∉ pagesOf q o) ∧
    (∀ q ∈ ([] : List (Nat × Nat)), ∀ x,
      x ∈ pagesOf (ADDR_TO_PAGE 0) (req_order 1048576) → x ∉ pagesOf q.1 q.2) ∧
    (∀ st'' L'', Reach st'' L'' → (ADDR_TO_PAGE 0, req_order 1048576) ∈ L'' →
      st''.order (ADDR_TO_PAGE 0) = ((req_order 1048576 : Nat) : Int)) :=
  c1_alloc_correct Reach.init rfl

/-- C2: freeing an address previously returned by allocate and not yet freed
(ghost entry `(p, o) ∈ L`) leaves a single free block: some final order `O`
with `o ≤ O ≤ MAX_ORDER` and head page `P` -- the minimum address of the
coalesced range, which covers the freed block -- linked into `free_area[O]`;
the buddy of `P` at order `O` is not in `free_area[O]`, which is why (or, at
`O = MAX_ORDER`, because the arena bound is reached) coalescing stopped; the
coverage invariant is re-established for the remaining live allocations. -/
theorem c2_free_coalesce {st : AState} {L : List (Nat × Nat)} {p o : Nat}
    (hR : Reach st L) (hq : (p, o) ∈ L) :
    ∃ O P rest,
      o ≤ O ∧ O ≤ MAX_ORDER ∧
      2 ^ (O - MIN_ORDER) ∣ P ∧ P ≤ p ∧
      pagesOf p o ≤ pagesOf P O ∧
      (∀ x, x ∈ pagesOf P O → P ≤ x) ∧
      (buddy_free st (PAGE_TO_ADDR p)).free_area O = P :: rest ∧
      ADDR_TO_PAGE (BUDDY_ADDR (PAGE_TO_ADDR P) O) ∉
        (buddy_free st (PAGE_TO_ADDR p)).free_area O ∧
      Inv (buddy_free st (PAGE_TO_ADDR p)) (L.erase (p, o)) := by
  obtain ⟨O, P, rest, h1, h2, h3, h4, h5, h6, h7, h8, h9, h10⟩ :=
    free_preserve (reach_inv hR) hq
  refine ⟨O, P, rest, h1, h2, h3, h4, h5, ?_, h6, ?_, h10⟩
  · intro x hx
    exact (mem_pagesOf.mp hx).1
  · rw [h6]
    exact h7

theorem c2_free_coalesce_witness :
    ∃ O P rest,
      20 ≤ O ∧ O ≤ MAX_ORDER ∧
      2 ^ (O - MIN_ORDER) ∣ P ∧ P ≤ 0 ∧
      pagesOf 0 20 ≤ pagesOf P O ∧
      (∀ x, x ∈ pagesOf P O → P ≤ x) ∧
      (buddy_free stMiB (PAGE_TO_ADDR 0)).free_area O = P :: rest ∧
      ADDR_TO_PAGE (BUDDY_ADDR (PAGE_TO_ADDR P) O) ∉
        (buddy_free stMiB (PAGE_TO_ADDR 0)).free_area O ∧
      Inv (buddy_free stMiB (PAGE_TO_ADDR 0)) (([(0, 20)] : List (Nat × Nat)).erase (0, 20)) :=
  c2_free_coalesce (@Reach.allocOk buddy_init [] 1048576 0 stMiB Reach.init rfl)
    (List.mem_cons_self _ _)

/-- C5: `buddy_alloc` fails at the InvalidSize return site iff `size ≤ 0`, and
at the OutOfMemory return site iff `size > 0` and either `size > 2^MAX_ORDER`
or no free list at any order in `[req_order size, MAX_ORDER]` is non-empty;
in every failure case the allocator state is returned unchanged. -/
theorem c5_error_cases (st : AState) (size : Int) :
    ((buddy_alloc st size).1 = .invalidSize ↔ size ≤ 0) ∧
    ((buddy_alloc st size).1 = .outOfMemory ↔
      (0 < size ∧ ((((2 : Nat) ^ MAX_ORDER : Nat) : Int) < size ∨
        ∀ i, req_order size ≤ i → i ≤ MAX_ORDER → st.free_area i = []))) ∧
    ((∀ a, (buddy_alloc st size).1 ≠ .ok a) → (buddy_alloc st size).2 = st) := by
  rcases buddy_alloc_shape st size with ⟨hpos, he⟩ | ⟨hpos, hfind, he⟩ |
    ⟨i, p, rest, hpos, hfind, hfree, he⟩
  · rw [he]
    refine ⟨⟨fun _ => hpos, fun _ => rfl⟩, ⟨?_, ?_⟩, fun _ => rfl⟩
    · intro hc
      exact absurd hc (by simp)
    · rintro ⟨h0, -⟩
      omega
  · rw [he]
    refine ⟨⟨?_, ?_⟩, ⟨?_, ?_⟩, fun _ => rfl⟩
    · intro hc
      exact absurd hc (by simp)
    · intro hc
      omega
    · intro _
      exact ⟨by omega, Or.inr (find_nonempty_eq_none.mp hfind)⟩
    · intro _
      rfl
  · rw [he]
    obtain ⟨hri, hiM, hine, -⟩ := find_nonempty_eq_some.mp hfind
    refine ⟨⟨?_, ?_⟩, ⟨?_, ?_⟩, ?_⟩
    · intro hc
      exact absurd hc (by simp)
    · intro hc
      omega
    · intro hc
      exact absurd hc (by simp)
    · rintro ⟨h0, hbig | hempty⟩
      · have := lt_req_order_of_pow_lt hbig
        omega
      · exact absurd hfree (by rw [hempty i hri hiM]; simp)
    · intro hno
      exact absurd (rfl : (AllocResult.ok (PAGE_TO_ADDR p)) = .ok (PAGE_TO_ADDR p))
        (hno (PAGE_TO_ADDR p))

/-- C7: the recursive allocation implementation (`buddy_split` re-entering
`buddy_alloc` with size `2^(order+1)`) is extensionally equal to the direct
iterative descent of the spec -- find the first non-empty order `i ≥ r`,
remove its head, split once per step from `i - 1` down to `r` -- producing the
same returned address and the same free-list and page-table state, for every
input and every state on which the allocation succeeds. -/
theorem c7_recursive_iterative_equiv (st : AState) (size : Int)
    (h : ∃ a, (buddy_alloc st size).1 = .ok a) :
    buddy_alloc_iter st size = buddy_alloc st size := by
  obtain ⟨a, ha⟩ := h
  exact alloc_iter_eq_of_ok ha

theorem c7_recursive_iterative_equiv_witness :
    (∃ a, (buddy_alloc buddy_init 65536).1 = .ok a) ∧
    buddy_alloc_iter buddy_init 65536 = buddy_alloc buddy_init 65536 :=
  ⟨⟨0, rfl⟩, c7_recursive_iterative_equiv buddy_init 65536 ⟨0, rfl⟩⟩

/-- C4 counterexample: from a fresh allocator, `buddy_alloc(4 KiB)` splits the
order-20 block down to order 12.  The first split's right half is page 128
(address `2^19`), inserted at the head of `free_area[19]` -- but its page
record's order field is never written: it is still the init value `UNSET`,
not 19 (line 148 of buddy.c sets only the left half's order). -/
theorem c4_counterexample :
    st4a.free_area 19 = [128] ∧ st4a.order 128 = UNSET ∧ st4a.order 128 ≠ (19 : Int) :=
  ⟨rfl, rfl, by decide⟩

/-- C4 amended: during the allocation descent, for every split step `j` from
`i - 1` down to `r`, the right half at address `A + 2^j` (page
`index_of(A) + 2^(j - MIN_ORDER)`) is inserted at the head of
`free_lists[j]`, and the left half at `A` is retained; however the right
half's page record's order field is NOT set to `j` -- `buddy_split` leaves it
at whatever value it had before the call (only the left half's order is
written, at line 148). -/
theorem c4_amended {st st' : AState} {size : Int} {a : Nat} {i : Nat}
    (hok : buddy_alloc st size = (.ok a, st'))
    (hi : find_nonempty st (req_order size) = some i)
    (j : Nat) (hj1 : req_order size ≤ j) (hj2 : j < i) :
    st'.free_area j = (ADDR_TO_PAGE a + 2 ^ (j - MIN_ORDER)) :: st.free_area j ∧
    st'.order (ADDR_TO_PAGE a + 2 ^ (j - MIN_ORDER))
      = st.order (ADDR_TO_PAGE a + 2 ^ (j - MIN_ORDER)) := by
  rcases buddy_alloc_shape st size with ⟨_, he⟩ | ⟨_, hfind, he⟩ |
    ⟨i0, p, rest, hpos, hfind, hfree, he⟩
  · rw [he] at hok
    rw [Prod.mk.injEq] at hok
    exact absurd hok.1 (by simp)
  · rw [hi] at hfind
    exact absurd hfind (by simp)
  · rw [hi] at hfind
    injection hfind with hii
    subst hii
    rw [he] at hok
    rw [Prod.mk.injEq] at hok
    obtain ⟨h1, h2⟩ := hok
    have ha : a = PAGE_TO_ADDR p := by
      cases h1
      rfl
    have hAP : ADDR_TO_PAGE a = p := by
      rw [ha, addr_page_round]
    obtain ⟨hri, hiM, -, -⟩ := find_nonempty_eq_some.mp hi
    have hr12 := min_le_req_order size
    have hps : (2 : Nat) ^ j / PAGE_SIZE = 2 ^ (j - MIN_ORDER) := by
      show (2 : Nat) ^ j / 2 ^ MIN_ORDER = _
      rw [Nat.pow_div (by omega) (by omega)]
    subst h2
    constructor
    · rw [descend_free_area, if_pos ⟨hj1, by omega⟩, hAP, ← hps]
      simp only []
      rw [Function.update_noteq (by omega : j ≠ i)]
    · rw [descend_order, hAP]
      simp only []
      have h0 : 0 < 2 ^ (j - MIN_ORDER) := Nat.pos_pow_of_pos _ (by omega)
      rw [Function.update_noteq (by omega : p + 2 ^ (j - MIN_ORDER) ≠ p)]

theorem c4_amended_witness :
    st4a.free_area 19 = (ADDR_TO_PAGE 0 + 2 ^ (19 - MIN_ORDER)) :: buddy_init.free_area 19 ∧
    st4a.order (ADDR_TO_PAGE 0 + 2 ^ (19 - MIN_ORDER))
      = buddy_init.order (ADDR_TO_PAGE 0 + 2 ^ (19 - MIN_ORDER)) :=
  @c4_amended buddy_init st4a 4096 0 20 rfl rfl 19 (by decide) (by decide)

theorem alloc64_first : buddy_alloc buddy_init 65536 = (.ok 0, stE1) := rfl

theorem alloc64_second : buddy_alloc stE1 65536 = (.ok 65536, stE2) := rfl

theorem free64_a1_first : buddy_free stE2 0 = stE3A := rfl

theorem free64_a2_second : buddy_free stE3A 65536 = stE4A := rfl

theorem free64_a2_first : buddy_free stE2 65536 = stE3B := rfl

theorem free64_a1_second : buddy_free stE3B 0 = stE4B := rfl

theorem st64a_eq : st64a = stE1 := by
  show (buddy_alloc buddy_init 65536).2 = stE1
  rw [alloc64_first]

theorem st64b_eq : st64b = stE2 := by
  show (buddy_alloc st64a 65536).2 = stE2
  rw [st64a_eq, alloc64_second]

theorem stC6A_eq : stC6A = stE4A := by
  show buddy_free (buddy_free st64b 0) 65536 = stE4A
  rw [st64b_eq, free64_a1_first, free64_a2_second]

theorem stC6B_eq : stC6B = stE4B := by
  show buddy_free (buddy_free st64b 65536) 0 = stE4B
  rw [st64b_eq, free64_a2_first, free64_a1_second]

/-- C6 counterexample: after `a1 = buddy_alloc(64 KiB) = 0` and
`a2 = buddy_alloc(64 KiB) = 65536`, the states after `free(a1); free(a2)`
(`stC6A`) and after `free(a2); free(a1)` (`stC6B`) are NOT the same state:
freeing in order abandons page 16 (the head of `a2`) as the higher-address
side of the first merge without clearing its order field, so
`stC6A.order 16 = 16` while `stC6B.order 16 = UNSET`. -/
theorem c6_counterexample :
    stC6A.order 16 = (16 : Int) ∧ stC6B.order 16 = UNSET ∧ stC6A ≠ stC6B := by
  rw [stC6A_eq, stC6B_eq]
  refine ⟨by decide, by decide, fun h => ?_⟩
  exact absurd (congrArg (fun s => s.order 16) h) (by decide)

/-- C6 amended: after allocating two adjacent 64-KiB buddy blocks
`a1 = 0 < a2 = 65536` (`a2 - a1 = 2^16`) from a fresh allocator, the
sequences `free(a1); free(a2)` and `free(a2); free(a1)` produce the same
fully-free FREE-LIST state: the free lists (all array indices
`0..MAX_ORDER`) agree between the two orders, `free_lists[MAX_ORDER]`
contains exactly block 0, and every other free list is empty.  (The full
states still differ, in a stale page-table order field -- see the
counterexample.) -/
theorem c6_amended :
    (buddy_alloc buddy_init 65536).1 = .ok 0 ∧
    (buddy_alloc st64a 65536).1 = .ok 65536 ∧
    (∀ o, o ≤ MAX_ORDER → stC6A.free_area o = stC6B.free_area o) ∧
    stC6A.free_area MAX_ORDER = [0] ∧
    (∀ o, o ≤ MAX_ORDER → o ≠ MAX_ORDER →
      stC6A.free_area o = [] ∧ stC6B.free_area o = []) := by
  rw [st64a_eq, stC6A_eq, stC6B_eq]
  exact ⟨rfl, by rw [alloc64_second], by decide, by decide, by decide⟩

theorem stC8_reach : Reach stC8 [] := by
  have h1 : Reach st4a [(0, 12)] :=
    @Reach.allocOk buddy_init [] 4096 0 st4a Reach.init rfl
  have h2 : Reach st4b [(1, 12), (0, 12)] :=
    @Reach.allocOk st4a [(0, 12)] 4096 4096 st4b h1 rfl
  have h3 : Reach (buddy_free st4b (PAGE_TO_ADDR 0)) [(1, 12)] :=
    @Reach.free st4b [(1, 12), (0, 12)] 0 12 (buddy_free st4b (PAGE_TO_ADDR 0)) h2
      (List.mem_cons_of_mem _ (List.mem_cons_self _ _)) rfl
  exact @Reach.free (buddy_free st4b (PAGE_TO_ADDR 0)) [(1, 12)] 1 12 stC8 h3
    (List.mem_cons_self _ _) rfl

/-- C8 counterexample: `stC8` is reachable (`alloc(4K)` twice from init, then
`free(0)`, `free(4096)`) and fully free with no live allocations; page 1 is
not a member of any free list (so it is a "Non-existent" block, covered by
the coalesced order-20 block), yet its order field is the stale value 12,
not UNSET: `buddy_free` never clears the order of the higher-address head it
absorbs during a merge. -/
theorem c8_counterexample :
    Reach stC8 [] ∧ (∀ o, 1 ∉ stC8.free_area o) ∧
    stC8.order 1 = (12 : Int) ∧ stC8.order 1 ≠ UNSET := by
  refine ⟨stC8_reach, ?_, rfl, by decide⟩
  intro o
  by_cases ho : o ≤ MAX_ORDER
  · intro hmem
    revert hmem
    revert ho
    revert o
    decide
  · intro hmem
    have := ((reach_inv stC8_reach).1.free_align o 1 hmem).2.1
    omega

/-- C8 amended: a page's order field is NOT reliably UNSET merely because the
page heads no free block and no live allocation (see the counterexample:
coalescing abandons the absorbed higher-address head with a stale order).
What the code does maintain in every reachable state: the head page of every
live allocation carries its allocated order, and the head page of the block
that `buddy_free` links into a free list has its order set to UNSET. -/
theorem c8_amended :
    (∀ st L, Reach st L → ∀ q ∈ L, st.order q.1 = ((q.2 : Nat) : Int)) ∧
    (∀ st L p o, Reach st L → (p, o) ∈ L →
      ∃ O P rest, (buddy_free st (PAGE_TO_ADDR p)).free_area O = P :: rest ∧
        (buddy_free st (PAGE_TO_ADDR p)).order P = UNSET) := by
  constructor
  · intro st L hR q hq
    exact (reach_inv hR).1.live_order q hq
  · intro st L p o hR hq
    obtain ⟨O, P, rest, -, -, -, -, -, h6, -, h8, -, -⟩ := free_preserve (reach_inv hR) hq
    exact ⟨O, P, rest, h6, h8⟩

theorem c8_amended_witness :
    st4a.order 0 = ((12 : Nat) : Int) ∧
    ∃ O P rest, (buddy_free st4a (PAGE_TO_ADDR 0)).free_area O = P :: rest ∧
      (buddy_free st4a (PAGE_TO_ADDR 0)).order P = UNSET :=
  ⟨c8_amended.1 st4a [(0, 12)]
      (@Reach.allocOk buddy_init [] 4096 0 st4a Reach.init rfl)
      (0, 12) (List.mem_cons_self _ _),
   c8_amended.2 st4a [(0, 12)] 0 12
      (@Reach.allocOk buddy_init [] 4096 0 st4a Reach.init rfl)
      (List.mem_cons_self _ _)⟩

/-- C9 counterexample: the dump after init; alloc(1 MiB); failed alloc(4 KiB);
free is NOT exactly the claimed string "0:4K ... 1:1024K" (nor that string
plus a newline): `buddy_dump` prints `"%d:%dK "` for every order including
the last, so a space precedes the line terminator. -/
theorem c9_counterexample :
    buddy_dump stC9 = "0:4K 0:8K 0:16K 0:32K 0:64K 0:128K 0:256K 0:512K 1:1024K \n" ∧
    buddy_dump stC9 ≠ "0:4K 0:8K 0:16K 0:32K 0:64K 0:128K 0:256K 0:512K 1:1024K" ∧
    buddy_dump stC9 ≠ "0:4K 0:8K 0:16K 0:32K 0:64K 0:128K 0:256K 0:512K 1:1024K\n" :=
  ⟨rfl, by decide, by decide⟩

/-- C9 amended: from a fresh allocator, `allocate(1 MiB)` returns the arena
base 0; a subsequent `allocate(4 KiB)` fails with OutOfMemory leaving the
state unchanged; after freeing the first block, dump emits for each order
from MIN to MAX a `count:size-in-KiB` pair, EACH pair (the last included)
followed by one space, then the line terminator -- printing exactly
"0:4K 0:8K 0:16K 0:32K 0:64K 0:128K 0:256K 0:512K 1:1024K \n". -/
theorem c9_amended :
    (buddy_alloc buddy_init 1048576).1 = .ok 0 ∧
    buddy_alloc stMiB 4096 = (.outOfMemory, stMiB) ∧
    buddy_dump stC9 = "0:4K 0:8K 0:16K 0:32K 0:64K 0:128K 0:256K 0:512K 1:1024K \n" :=
  ⟨rfl, rfl, rfl⟩

theorem buddy_addr_max_out {A : Nat} (hA : A < 2 ^ MAX_ORDER) :
    2 ^ MAX_ORDER ≤ BUDDY_ADDR A MAX_ORDER ∧
    ∀ q, q < N_PAGES → BUDDY_ADDR A MAX_ORDER ≠ PAGE_TO_ADDR q := by
  have hb : BUDDY_ADDR A MAX_ORDER = A + 2 ^ MAX_ORDER := by
    unfold BUDDY_ADDR
    exact xor_pow_of_lt hA
  constructor
  · rw [hb]
    omega
  · intro q hq
    rw [hb]
    have h1 : PAGE_TO_ADDR q = q * 4096 := rfl
    have h2 : (2 : Nat) ^ MAX_ORDER = 1048576 := by decide
    have h3 : N_PAGES = 256 := rfl
    rw [h1, h2]
    rw [h3] at hq
    omega

/-- C10: for any in-arena offset `A`, the buddy address at order MAX_ORDER,
`(A XOR 2^MAX_ORDER)`, lies at or beyond the arena end and never equals the
address of any page record; consequently, in every reachable state, the
buddy search of `buddy_free` at order MAX_ORDER finds no match; on that
iteration the loop inserts the block into `free_lists[MAX_ORDER]` and
returns (so the free-list array is never indexed above MAX_ORDER -- freeing
leaves every list above MAX_ORDER untouched); and the loop is insensitive to
any fuel of at least `MAX_ORDER - o + 1`, i.e. `buddy_free` terminates after
at most `MAX_ORDER - o + 1` iterations from entry order `o`. -/
theorem c10_buddy_at_max_safe :
    (∀ A, A < 2 ^ MAX_ORDER →
      2 ^ MAX_ORDER ≤ BUDDY_ADDR A MAX_ORDER ∧
      ∀ q, q < N_PAGES → BUDDY_ADDR A MAX_ORDER ≠ PAGE_TO_ADDR q) ∧
    (∀ st L, Reach st L → ∀ A, A < 2 ^ MAX_ORDER →
      find_buddy st A MAX_ORDER = none) ∧
    (∀ st A idx fuel, find_buddy st A MAX_ORDER = none →
      buddy_free_loop (fuel + 1) st A idx MAX_ORDER
        = { st with order := Function.update st.order idx UNSET,
                    free_area := Function.update st.free_area MAX_ORDER
                      (idx :: st.free_area MAX_ORDER) }) ∧
    (∀ st L p o, Reach st L → (p, o) ∈ L → ∀ o', MAX_ORDER < o' →
      (buddy_free st (PAGE_TO_ADDR p)).free_area o' = st.free_area o') ∧
    (∀ st A idx o fuel, o ≤ MAX_ORDER → MAX_ORDER + 1 - o ≤ fuel →
      buddy_free_loop fuel st A idx o
        = buddy_free_loop (MAX_ORDER + 1 - o) st A idx o) := by
  refine ⟨fun A hA => buddy_addr_max_out hA, ?_, ?_, ?_, ?_⟩
  · intro st L hR A hA
    unfold find_buddy
    rw [List.find?_eq_none]
    intro q hq hbe
    have hqc : (q : Nat) ∈ covered st L := free_mem_covered hq le_rfl
    rw [(reach_inv hR).2] at hqc
    have hqN : q < N_PAGES := Multiset.mem_range.mp hqc
    exact (buddy_addr_max_out hA).2 q hqN (eq_of_beq hbe)
  · intro st A idx fuel h
    rw [buddy_free_loop_succ, h]
  · intro st L p o hR hq o' ho'
    obtain ⟨O, P, rest, -, -, -, -, -, -, -, -, h9, -⟩ := free_preserve (reach_inv hR) hq
    exact h9 o' ho'
  · intro st A idx o fuel ho hf
    exact free_loop_fuel_irrel fuel (MAX_ORDER + 1 - o) st A idx o ho hf (by omega)

theorem c10_buddy_at_max_safe_witness :
    (2 ^ MAX_ORDER ≤ BUDDY_ADDR 0 MAX_ORDER ∧
      ∀ q, q < N_PAGES → BUDDY_ADDR 0 MAX_ORDER ≠ PAGE_TO_ADDR q) ∧
    find_buddy stMiB 0 MAX_ORDER = none ∧
    buddy_free_loop 1 buddy_init 0 0 MAX_ORDER
      = { buddy_init with order := Function.update buddy_init.order 0 UNSET,
                          free_area := Function.update buddy_init.free_area MAX_ORDER
                            (0 :: buddy_init.free_area MAX_ORDER) } ∧
    (buddy_free stMiB (PAGE_TO_ADDR 0)).free_area 21 = stMiB.free_area 21 ∧
    buddy_free_loop 32 buddy_init 0 0 20 = buddy_free_loop 1 buddy_init 0 0 20 :=
  ⟨c10_buddy_at_max_safe.1 0 (by decide),
   c10_buddy_at_max_safe.2.1 stMiB [(0, 20)]
     (@Reach.allocOk buddy_init [] 1048576 0 stMiB Reach.init rfl) 0 (by decide),
   c10_buddy_at_max_safe.2.2.1 buddy_init 0 0 0 rfl,
   c10_buddy_at_max_safe.2.2.2.1 stMiB [(0, 20)] 0 20
     (@Reach.allocOk buddy_init [] 1048576 0 stMiB Reach.init rfl)
     (List.mem_cons_self _ _) 21 (by decide),
   c10_buddy_at_max_safe.2.2.2.2 buddy_init 0 0 20 32 (by decide) (by decide)⟩

end Buddy
